import Mathlib

/-
Verification of the template-driven command router (src/src/commands.rs).

The router compiles command templates into a shared finite state machine and
dispatches incoming messages to handlers guarded by authorization predicates.
`commands.rs` is translated directly below.  The `StateMachine` type it uses
lives in a module that is not part of the available sources, so that type and
its operations are modelled from the design document (sections 4.2 and 4.3).

Conventions: Rust strings are modelled as `List Char` (the templates are
ASCII, so byte indexing and char indexing coincide); Rust slice expressions
that can panic are modelled with `Option` (`none` = panic); the opaque
handler payload `Arc<Command>` is a type parameter `T`.
-/

/-- Modelled from the spec: a character class is a predicate over one input
character - a literal char, an explicit inclusion set, or any character
except an excluded set (spec section 3, CharacterClass).  `state_machine.rs`
itself is not among the available sources. -/
inductive CharacterSet where
  | literal (c : Char)
  | inclusion (cs : List Char)
  | exclusion (cs : List Char)
deriving DecidableEq, Repr

/-- Modelled from the spec: `accepts` is defined per tag (spec section 3). -/
def CharacterSet.accepts : CharacterSet → Char → Bool
  | .literal a, c => c = a
  | .inclusion cs, c => cs.contains c
  | .exclusion cs, c => !cs.contains c

/-- Modelled from the spec: `literal(c)` constructor (`CharacterSet::from_char`). -/
def CharacterSet.fromChar (c : Char) : CharacterSet := .literal c

/-- Modelled from the spec: `any()` - any character, no exclusions. -/
def CharacterSet.any : CharacterSet := .exclusion []

/-- Modelled from the spec: `insert(c)` converts the class's underlying set
(spec section 4.1). -/
def CharacterSet.insert : CharacterSet → Char → CharacterSet
  | .literal a, c => .inclusion [a, c]
  | .inclusion cs, c => .inclusion (cs ++ [c])
  | .exclusion cs, c => .exclusion (cs.erase c)

/-- Modelled from the spec: `remove(c)` converts the class's underlying set
(spec section 4.1). -/
def CharacterSet.remove : CharacterSet → Char → CharacterSet
  | .literal a, c => if a = c then .inclusion [] else .literal a
  | .inclusion cs, c => .inclusion (cs.erase c)
  | .exclusion cs, c => .exclusion (cs ++ [c])

/-- Modelled from the spec: one automaton state - the character class on its
incoming edges, the ordered list of successor states, the final marker, the
capture-begin/capture-end tags and the optional handler binding
(spec sections 3 and 4.2).  An edge's character class is the class stored at
its target state, which is what makes the two-argument
`add_next_state(from, to)` calls in `commands.rs` meaningful. -/
structure StateNode (T : Type) where
  charSet : CharacterSet
  nextStates : List Nat
  isFinal : Bool
  startParse : Option (List Char)
  endParse : Bool
  handler : Option T
deriving DecidableEq, Repr

/-- The inert node used for out-of-range lookups. -/
def defaultNode (T : Type) : StateNode T :=
  { charSet := .inclusion [], nextStates := [], isFinal := false,
    startParse := none, endParse := false, handler := none }

instance : Inhabited (StateNode T) := ⟨defaultNode T⟩

/-- Modelled from the spec: the automaton owns all states, indexed densely
from 0; state 0 is the start state (spec section 3). -/
structure StateMachine (T : Type) where
  states : List (StateNode T)
deriving DecidableEq, Repr

/-- Modelled from the spec: a fresh machine holding only the start state. -/
def StateMachine.new (T : Type) : StateMachine T :=
  ⟨[defaultNode T]⟩

/-- Look up a state, returning the inert node when out of range. -/
def getNode (sm : StateMachine T) (s : Nat) : StateNode T :=
  sm.states.getD s (defaultNode T)

/-- Replace a state (no-op when out of range, mirroring that reachable
states are always in range). -/
def setNode (sm : StateMachine T) (s : Nat) (n : StateNode T) : StateMachine T :=
  ⟨sm.states.set s n⟩

/-- A freshly allocated state: no outgoing edges yet, entered over `cs`. -/
def freshNode (T : Type) (cs : CharacterSet) : StateNode T :=
  { charSet := cs, nextStates := [], isFinal := false,
    startParse := none, endParse := false, handler := none }

/-- Modelled from the spec: `add_edge(state, class)` - if `state` already has
an outgoing edge whose class is structurally equal to `class`, return its
existing target (prefix sharing); otherwise allocate a fresh state, append an
edge to it, and return it (spec section 4.2, `StateMachine::add`). -/
def StateMachine.add (sm : StateMachine T) (s : Nat) (cs : CharacterSet) :
    StateMachine T × Nat :=
  match (getNode sm s).nextStates.find? (fun t => (getNode sm t).charSet == cs) with
  | some t => (sm, t)
  | none =>
    let fresh := sm.states.length
    let sm1 : StateMachine T := ⟨sm.states ++ [freshNode T cs]⟩
    let node := getNode sm1 s
    (setNode sm1 s { node with nextStates := node.nextStates ++ [fresh] }, fresh)

/-- Modelled from the spec: `add_alias_edge` - append an edge from `s` to the
already existing state `t` (self-loops and back-edges); the class of the new
edge is the one stored at `t` (spec section 4.2, `StateMachine::add_next_state`). -/
def StateMachine.addNextState (sm : StateMachine T) (s t : Nat) : StateMachine T :=
  let node := getNode sm s
  setNode sm s { node with nextStates := node.nextStates ++ [t] }

/-- Modelled from the spec: `mark_final` (spec section 4.2,
`StateMachine::set_final_state`). -/
def StateMachine.setFinalState (sm : StateMachine T) (s : Nat) : StateMachine T :=
  setNode sm s { getNode sm s with isFinal := true }

/-- Modelled from the spec: bind a handler payload to a state
(`StateMachine::set_handler`). -/
def StateMachine.setHandler (sm : StateMachine T) (s : Nat) (h : T) : StateMachine T :=
  setNode sm s { getNode sm s with handler := some h }

/-- Modelled from the spec: `mark_capture_begin` (`StateMachine::start_parse`). -/
def StateMachine.startParse (sm : StateMachine T) (s : Nat) (name : List Char) :
    StateMachine T :=
  setNode sm s { getNode sm s with startParse := some name }

/-- Modelled from the spec: `mark_capture_end` (`StateMachine::end_parse`). -/
def StateMachine.endParse (sm : StateMachine T) (s : Nat) : StateMachine T :=
  setNode sm s { getNode sm s with endParse := true }

/-- Among the outgoing edges of `s`, in insertion order, the first one whose
class accepts `c` (spec section 4.2: earlier-inserted edges take precedence). -/
def StateMachine.stepChar (sm : StateMachine T) (s : Nat) (c : Char) : Option Nat :=
  (getNode sm s).nextStates.find? (fun t => (getNode sm t).charSet.accepts c)

/-- Close the currently open capture span, appending it to the accumulated
parameter list. -/
def closeCapture (acc : List (List Char × List Char)) :
    Option (Nat × List Char × List Char) → List (List Char × List Char)
  | none => acc
  | some (_, nm, buf) => acc ++ [(nm, buf)]

/-- Modelled from the spec: the linear scan of `match` (spec section 4.2) -
at each character take the first accepting edge, accumulate capture buffers
while the walk stays on a capture-anchor state, and succeed only when the
input is exhausted on a final state.  (Section 9 of the design document notes
that the underlying tie-break policy is not independently observable; this
model follows the first-inserted-edge-wins policy stated in section 4.2.) -/
def processAux (sm : StateMachine T) :
    List Char → Nat → List (List Char × List Char) →
    Option (Nat × List Char × List Char) →
    Option (T × List (List Char × List Char))
  | [], s, acc, op =>
    let node := getNode sm s
    if node.isFinal then node.handler.map (fun h => (h, closeCapture acc op)) else none
  | c :: rest, s, acc, op =>
    match sm.stepChar s c with
    | none => none
    | some t =>
      match (getNode sm t).startParse with
      | some nm =>
        match op with
        | some (anchor, nm0, buf) =>
          if anchor = t then processAux sm rest t acc (some (anchor, nm0, buf ++ [c]))
          else processAux sm rest t (closeCapture acc op) (some (t, nm, [c]))
        | none => processAux sm rest t acc (some (t, nm, [c]))
      | none => processAux sm rest t (closeCapture acc op) none

/-- Modelled from the spec: `StateMachine::process` - scan the whole input
from state 0 and return the bound handler plus captured parameters on
acceptance. -/
def StateMachine.process (sm : StateMachine T) (input : List Char) :
    Option (T × List (List Char × List Char)) :=
  processAux sm input 0 [] none

/-
Translations of src/src/commands.rs follow.  Rust `&'static str` values are
`List Char`; the backtick and brace characters are written with their escape
codes throughout.
-/

/-- The command marker: `const PREFIX: &'static str = "?"` (commands.rs line 9). -/
def PREFIXSTR : List Char := ['?']

/-- The literal pattern searched for by `key_value_pair`, the three
characters of the Rust string literal written out. -/
def kvPat : List Char := ['=', '\x7b', '\x7d']

/-- Rust `str::split(sep)` on one separator character: every separator
starts a new (possibly empty) piece. -/
def splitChar (sep : Char) : List Char → List (List Char)
  | [] => [[]]
  | c :: rest =>
    if c = sep then [] :: splitChar sep rest
    else
      match splitChar sep rest with
      | [] => [[c]]
      | p :: ps => (c :: p) :: ps

/-- `command.split(' ').filter(|segment| segment.len() > 0)`
(commands.rs lines 70-72). -/
def splitSegments (cmd : List Char) : List (List Char) :=
  (splitChar ' ' cmd).filter (fun s => s.length > 0)

/-- Rust slice `&s[a..m]`: `none` models the panic when the bounds are
invalid. -/
def sliceRange (s : List Char) (a m : Nat) : Option (List Char) :=
  if a ≤ m ∧ m ≤ s.length then some ((s.take m).drop a) else none

/-- The index of the first occurrence of `pat`:
`s.match_indices(pat).nth(0)` (commands.rs line 210). -/
def matchIndicesFirst (pat : List Char) : List Char → Option Nat
  | [] => if pat.isPrefixOf ([] : List Char) then some 0 else none
  | c :: rest =>
    if pat.isPrefixOf (c :: rest) then some 0
    else (matchIndicesFirst pat rest).map (· + 1)

/-- `key_value_pair` (commands.rs lines 209-221): the name before the first
occurrence of the pattern, provided it is non-empty. -/
def keyValuePair (s : List Char) : Option (List Char) :=
  (matchIndicesFirst kvPat s).bind (fun p =>
    let name := s.take p
    if name.length > 0 then some name else none)

/-- `add_space` (commands.rs lines 223-232): for `i > 0` an edge accepting
space or newline, made self-looping; for `i = 0` nothing. -/
def addSpace (sm : StateMachine T) (state : Nat) (i : Nat) : StateMachine T × Nat :=
  if i > 0 then
    let cs := (CharacterSet.fromChar ' ').insert '\n'
    let (sm1, st) := sm.add state cs
    (sm1.addNextState st st, st)
  else (sm, state)

/-- Literal character-by-character edges:
`segment.chars().for_each(|ch| state = self.state_machine.add(state, CharacterSet::from_char(ch)))`
(commands.rs lines 112-114, also used at 239-241 and 243-245 and 338-340). -/
def addChars (sm : StateMachine T) (st : Nat) : List Char → StateMachine T × Nat
  | [] => (sm, st)
  | c :: rest =>
    let (sm1, st1) := sm.add st (CharacterSet.fromChar c)
    addChars sm1 st1 rest

/-- `add_help_menu` (commands.rs lines 234-248): literal text of the help
marker, mandatory whitespace, then the base command name.  The five
characters are the Rust string literal written out. -/
def addHelpMenu (sm : StateMachine T) (cmd : List Char) (state : Nat) :
    StateMachine T × Nat :=
  let (sm1, st1) := addChars sm state ['?', 'h', 'e', 'l', 'p']
  let (sm2, st2) := addSpace sm1 st1 1
  addChars sm2 st2 cmd

/-- `add_dynamic_segment` (commands.rs lines 250-263): any character except
space, self-looping, tagged begin and end capture for `name`. -/
def addDynamicSegment (sm : StateMachine T) (name : List Char) (state : Nat) :
    StateMachine T × Nat :=
  let cs := CharacterSet.any.remove ' '
  let (sm1, st) := sm.add state cs
  let sm2 := (sm1.addNextState st st).startParse st name
  (sm2.endParse st, st)

/-- `add_remaining_segment` (commands.rs lines 265-277): any character at
all, self-looping, tagged begin and end capture for `name`. -/
def addRemainingSegment (sm : StateMachine T) (name : List Char) (state : Nat) :
    StateMachine T × Nat :=
  let (sm1, st) := sm.add state CharacterSet.any
  let sm2 := (sm1.addNextState st st).startParse st name
  (sm2.endParse st, st)

/-- `add_code_segment_multi_line` (commands.rs lines 279-311): three literal
backticks, a side branch for an optional language tag (no capture tags are
placed on it), a literal newline with a bypass edge from the fence state, the
self-looping body capture tagged begin and end for `name`, and three closing
literal backticks. -/
def addCodeSegmentMultiLine (sm : StateMachine T) (name : List Char) (state : Nat) :
    StateMachine T × Nat :=
  let (sm1, st1) := sm.add state (CharacterSet.fromChar '\x60')
  let (sm2, st2) := sm1.add st1 (CharacterSet.fromChar '\x60')
  let (sm3, lambda) := sm2.add st2 (CharacterSet.fromChar '\x60')
  let cs := ((CharacterSet.any.remove '\x60').remove ' ').remove '\n'
  let (sm4, st4) := sm3.add lambda cs
  let sm5 := sm4.addNextState st4 st4
  let (sm6, st6) := sm5.add st4 (CharacterSet.fromChar '\n')
  let sm7 := sm6.addNextState lambda st6
  let (sm8, st8) := sm7.add st6 CharacterSet.any
  let sm9 := ((sm8.addNextState st8 st8).startParse st8 name).endParse st8
  let (sm10, st10) := sm9.add st8 (CharacterSet.fromChar '\x60')
  let (sm11, st11) := sm10.add st10 (CharacterSet.fromChar '\x60')
  sm11.add st11 (CharacterSet.fromChar '\x60')

/-- `add_code_segment_single_line` (commands.rs lines 313-331): the opening
fence of `n` backticks, the self-looping capture tagged begin and end for
`name`, and the closing fence of `n` backticks. -/
def addCodeSegmentSingleLine (sm : StateMachine T) (name : List Char) (state : Nat)
    (nBackticks : Nat) : StateMachine T × Nat :=
  let (sm1, st1) := addChars sm state (List.replicate nBackticks '\x60')
  let (sm2, st2) := sm1.add st1 CharacterSet.any
  let sm3 := ((sm2.addNextState st2 st2).startParse st2 name).endParse st2
  addChars sm3 st2 (List.replicate nBackticks '\x60')

/-- `add_key_value` (commands.rs lines 333-352): literal edges for the name,
a literal equals sign, then the self-looping value capture accepting any
character except space and newline, tagged begin and end for `name`. -/
def addKeyValue (sm : StateMachine T) (name : List Char) (state : Nat) :
    StateMachine T × Nat :=
  let (sm1, st1) := addChars sm state name
  let (sm2, st2) := sm1.add st1 (CharacterSet.fromChar '=')
  let cs := (CharacterSet.any.remove ' ').remove '\n'
  let (sm3, st3) := sm2.add st2 cs
  let sm4 := ((sm3.addNextState st3 st3).startParse st3 name).endParse st3
  (sm4, st3)

/-- The mutable loop state of `Commands::add_protected` (commands.rs lines
65-68): the current state, the optional key/value hub state and the
accumulated list of final-eligible states. -/
structure LoopState (T : Type) where
  sm : StateMachine T
  state : Nat
  optLambdaState : Option Nat
  optFinalStates : List Nat
deriving Repr

/-- One iteration of the segment loop of `Commands::add_protected`
(commands.rs lines 74-117).  `none` models a panic in one of the Rust slice
expressions. -/
def segmentStep (i : Nat) (segment : List Char) (l : LoopState T) :
    Option (LoopState T) :=
  match keyValuePair segment with
  | some name =>
    match l.optLambdaState with
    | some lambda =>
      let (sm1, st) := addKeyValue l.sm name lambda
      let sm2 := sm1.addNextState st lambda
      some { sm := sm2, state := st, optLambdaState := some lambda,
             optFinalStates := l.optFinalStates ++ [st] }
    | none =>
      let finals1 := l.optFinalStates ++ [l.state]
      let (sm1, st1) := addSpace l.sm l.state i
      let (sm2, st2) := addKeyValue sm1 name st1
      let sm3 := sm2.addNextState st2 st1
      some { sm := sm3, state := st2, optLambdaState := some st1,
             optFinalStates := finals1 ++ [st2] }
  | none =>
    let (sm1, st1) := addSpace l.sm l.state i
    let core :=
      if ['\x60', '\x60', '\x60', '\n'].isPrefixOf segment ∧
         ['\x60', '\x60', '\x60'].isSuffixOf segment then
        (sliceRange segment 4 (segment.length - 3)).map
          (fun name => addCodeSegmentMultiLine sm1 name st1)
      else if ['\x60', '\x60', '\x60'].isPrefixOf segment ∧
              ['\x60', '\x60', '\x60'].isSuffixOf segment then
        (sliceRange segment 3 (segment.length - 3)).map
          (fun name => addCodeSegmentSingleLine sm1 name st1 3)
      else if ['\x60'].isPrefixOf segment ∧ ['\x60'].isSuffixOf segment then
        (sliceRange segment 1 (segment.length - 1)).map
          (fun name => addCodeSegmentSingleLine sm1 name st1 1)
      else if ['\x7b'].isPrefixOf segment ∧ ['\x7d'].isSuffixOf segment then
        (sliceRange segment 1 (segment.length - 1)).map
          (fun name => addDynamicSegment sm1 name st1)
      else if ['.', '.', '.'].isSuffixOf segment then
        some (addRemainingSegment sm1 (segment.take (segment.length - 3)) st1)
      else
        some (addChars sm1 st1 segment)
    core.map (fun p =>
      { sm := p.1, state := p.2, optLambdaState := none, optFinalStates := [] })

/-- The whole enumerated segment loop of `Commands::add_protected`. -/
def addProtectedLoop : List (Nat × List Char) → LoopState T → Option (LoopState T)
  | [], l => some l
  | (i, seg) :: rest, l => (segmentStep i seg l).bind (addProtectedLoop rest)

/-- Mark one state final and bind the handler, the body of the closing loop
of `Commands::add_protected` (commands.rs lines 125-128 and 130-131). -/
def markFinal (sm : StateMachine T) (s : Nat) (h : T) : StateMachine T :=
  (sm.setFinalState s).setHandler s h

/-- `Commands::add_protected` less the surrounding `Commands` record
(commands.rs lines 58-133): run the segment loop from state 0, then mark the
accumulated final states (or the single last state) and bind the handler. -/
def addProtected (sm : StateMachine T) (command : List Char) (handler : T) :
    Option (StateMachine T) :=
  (addProtectedLoop (splitSegments command).enum
      { sm := sm, state := 0, optLambdaState := none, optFinalStates := [] }).map
    (fun l =>
      if l.optLambdaState.isSome then
        l.optFinalStates.foldl (fun acc s => markFinal acc s handler) l.sm
      else
        markFinal l.sm l.state handler)

/-- `GuardFn` (commands.rs line 11): the guard receives the captured
parameters (the external `Context`/`Message` handles of `Args` are opaque
collaborators and are not modelled) and may fail. -/
def GuardFn : Type := List (List Char × List Char) → Except String Bool

/-- `struct Command` (commands.rs lines 13-16): the guard plus the handler
closure. -/
structure Command where
  guard : GuardFn
  ptr : List (List Char × List Char) → Except String Unit

/-- `struct Commands` (commands.rs lines 35-39): the shared state machine
plus the one-shot help menu.  The blocking HTTP client is an external
collaborator and is not modelled. -/
structure Commands where
  state_machine : StateMachine Command
  menu : Option (List (List Char × (List Char × GuardFn)))

/-- `Commands::new` (commands.rs lines 42-48). -/
def Commands.new : Commands :=
  { state_machine := StateMachine.new Command, menu := some [] }

/-- `HashMap::insert`: replace the value under an existing key, otherwise
append the new binding. -/
def menuInsert (m : List (List Char × (List Char × GuardFn)))
    (k : List Char) (v : List Char × GuardFn) :
    List (List Char × (List Char × GuardFn)) :=
  if m.any (fun p => p.1 == k) then
    m.map (fun p => if p.1 == k then (k, v) else p)
  else m ++ [(k, v)]

/-- `Commands::add_protected` (commands.rs lines 58-133) at the `Commands`
level: build the `Command` payload and compile the template into the shared
machine; `none` models a panic in a slice expression.  (Named with a `Cmd`
suffix because the standalone compilation function above already carries the
source name.) -/
def Commands.addProtectedCmd (c : Commands) (command : List Char)
    (handler : List (List Char × List Char) → Except String Unit)
    (guard : GuardFn) : Option Commands :=
  (addProtected c.state_machine command { guard := guard, ptr := handler }).map
    (fun m => { c with state_machine := m })

/-- `Commands::add` (commands.rs lines 50-56): `add_protected` with the
always-true guard. -/
def Commands.add (c : Commands) (command : List Char)
    (handler : List (List Char × List Char) → Except String Unit) : Option Commands :=
  c.addProtectedCmd command handler (fun _ => Except.ok true)

/-- `Commands::help_protected` (commands.rs lines 144-169): record the menu
entry when the menu is still present (`as_mut().map`), then compile the
help path and bind its handler and guard; `none` models the panic of
`&cmd[1..]` on an empty command. -/
def Commands.helpProtected (c : Commands) (cmd : List Char) (desc : List Char)
    (handler : List (List Char × List Char) → Except String Unit)
    (guard : GuardFn) : Option Commands :=
  (sliceRange cmd 1 cmd.length).map (fun base_cmd =>
    let menu1 := c.menu.map (fun m => menuInsert m cmd (desc, guard))
    let (sm1, st) := addHelpMenu c.state_machine base_cmd 0
    { state_machine := (sm1.setFinalState st).setHandler st
        { guard := guard, ptr := handler },
      menu := menu1 })

/-- `Commands::help` (commands.rs lines 135-142). -/
def Commands.help (c : Commands) (cmd : List Char) (desc : List Char)
    (handler : List (List Char × List Char) → Except String Unit) : Option Commands :=
  c.helpProtected cmd desc handler (fun _ => Except.ok true)

/-- `Commands::menu` (commands.rs lines 171-173): `self.menu.take()` - the
recorded listing is returned and replaced by `None`.  (Named `menuTake` here
because the record field already carries the source name.) -/
def Commands.menuTake (c : Commands) :
    Option (List (List Char × (List Char × GuardFn))) × Commands :=
  (c.menu, { c with menu := none })

/-- The externally observable actions of one `Commands::execute` dispatch:
invoking the state-machine match, calling the matched handler, sending the
permission-denial reply, and reporting an error to the `error!` sink. -/
inductive Event where
  | matchAttempted
  | handlerCalled
  | unauthorizedReply
  | errorSink (e : String)
deriving DecidableEq, Repr

/-- The error-sink events produced by a fallible call (`if let Err(e) =
... { error!(...) }`). -/
def sinkEvents {A : Type} : Except String A → List Event
  | Except.ok _ => []
  | Except.error e => [Event.errorSink e]

/-- `Commands::execute` (commands.rs lines 175-206) as its trace of
observable events: nothing unless the message is not the router's own and
starts with the prefix; otherwise run the match, evaluate the guard, and
either call the handler, send the permission-denial reply, or report the
guard error.  `isOwn` models `msg.is_own(&cx)` and `sendReplyRes` the result
of `api::send_reply` (both external collaborators). -/
def executeEvents (sm : StateMachine Command) (isOwn : Bool) (content : List Char)
    (sendReplyRes : Except String Unit) : List Event :=
  if !isOwn && PREFIXSTR.isPrefixOf content then
    match sm.process content with
    | none => [Event.matchAttempted]
    | some (cmd, params) =>
      Event.matchAttempted ::
        match cmd.guard params with
        | Except.ok true => Event.handlerCalled :: sinkEvents (cmd.ptr params)
        | Except.ok false => Event.unauthorizedReply :: sinkEvents sendReplyRes
        | Except.error e => [Event.errorSink e]
  else []

/-- `Commands::execute` at the `Commands` level. -/
def Commands.execute (c : Commands) (isOwn : Bool) (content : List Char)
    (sendReplyRes : Except String Unit) : List Event :=
  executeEvents c.state_machine isOwn content sendReplyRes

/-
Claim C8 speaks of a whitespace edge inserted before every segment of
positive index.  The variant compiler below follows those words - it runs
`add_space` first for every segment, including the segments that continue a
key/value run - so that it can be compared with the compiler translated from
the source.
-/

/-- The segment loop iteration as claim C8 words it: for `i > 0` the
whitespace edge is inserted first for every segment, including a key/value
segment that continues an existing run; everything else is unchanged. -/
def segmentStepClaimC8 (i : Nat) (segment : List Char) (l : LoopState T) :
    Option (LoopState T) :=
  match keyValuePair segment with
  | some name =>
    match l.optLambdaState with
    | some lambda =>
      let (smw, _) := addSpace l.sm l.state i
      let (sm1, st) := addKeyValue smw name lambda
      let sm2 := sm1.addNextState st lambda
      some { sm := sm2, state := st, optLambdaState := some lambda,
             optFinalStates := l.optFinalStates ++ [st] }
    | none => segmentStep i segment l
  | none => segmentStep i segment l

/-- The claim-C8 variant of the whole segment loop. -/
def addProtectedLoopClaimC8 :
    List (Nat × List Char) → LoopState T → Option (LoopState T)
  | [], l => some l
  | (i, seg) :: rest, l => (segmentStepClaimC8 i seg l).bind (addProtectedLoopClaimC8 rest)

/-- The claim-C8 variant of `add_protected`. -/
def addProtectedClaimC8 (sm : StateMachine T) (command : List Char) (handler : T) :
    Option (StateMachine T) :=
  (addProtectedLoopClaimC8 (splitSegments command).enum
      { sm := sm, state := 0, optLambdaState := none, optFinalStates := [] }).map
    (fun l =>
      if l.optLambdaState.isSome then
        l.optFinalStates.foldl (fun acc s => markFinal acc s handler) l.sm
      else
        markFinal l.sm l.state handler)

/-- The number of states whose incoming character class is the inter-segment
whitespace class. -/
def countWhitespaceStates (sm : StateMachine T) : Nat :=
  (sm.states.filter
    (fun nd => nd.charSet == (CharacterSet.fromChar ' ').insert '\n')).length

/-
Groundwork: state lookups, machine well-formedness (every edge target is a
valid state id, the invariant of spec section 3), and how each construction
operation affects them.
-/

/-- Every edge target of every state is a valid state id (spec section 3
invariant), as a decidable check. -/
def SMwf (sm : StateMachine T) : Bool :=
  sm.states.all (fun nd => nd.nextStates.all (fun t => decide (t < sm.states.length)))

theorem smwf_iff (sm : StateMachine T) :
    SMwf sm = true ↔ ∀ s t, t ∈ (getNode sm s).nextStates → t < sm.states.length := by
  unfold SMwf
  rw [List.all_eq_true]
  constructor
  · intro h s t ht
    by_cases hs : s < sm.states.length
    · have hmem : getNode sm s ∈ sm.states := by
        rw [getNode, List.getD_eq_getElem _ _ hs]
        exact List.getElem_mem hs
      have h2 := h _ hmem
      rw [List.all_eq_true] at h2
      simpa using h2 t ht
    · rw [getNode, List.getD_eq_default _ _ (Nat.le_of_not_lt hs)] at ht
      simp [defaultNode] at ht
  · intro h nd hnd
    rw [List.all_eq_true]
    intro t ht
    obtain ⟨i, hi, rfl⟩ := List.mem_iff_getElem.mp hnd
    have hget : getNode sm i = sm.states[i] := by
      rw [getNode, List.getD_eq_getElem _ _ hi]
    simpa using h i t (hget ▸ ht)

theorem setNode_length (sm : StateMachine T) (s : Nat) (n : StateNode T) :
    (setNode sm s n).states.length = sm.states.length := by
  simp [setNode]

theorem getNode_setNode_self (sm : StateMachine T) (s : Nat) (n : StateNode T)
    (h : s < sm.states.length) : getNode (setNode sm s n) s = n := by
  rw [getNode, setNode, List.getD_eq_getD_get?, List.get?_set_eq_of_lt _ h]
  rfl

theorem getNode_setNode_ne (sm : StateMachine T) (s t : Nat) (n : StateNode T)
    (h : t ≠ s) : getNode (setNode sm s n) t = getNode sm t := by
  rw [getNode, getNode, setNode, List.getD_eq_getD_get?, List.getD_eq_getD_get?,
    List.get?_set_ne _ _ (fun hc => h hc.symm)]

theorem getNode_out (sm : StateMachine T) (u : Nat) (hu : sm.states.length ≤ u) :
    getNode sm u = defaultNode T :=
  List.getD_eq_default _ _ hu

theorem getNode_setNode_cases (sm : StateMachine T) (s u : Nat) (n : StateNode T) :
    getNode (setNode sm s n) u = n ∨ getNode (setNode sm s n) u = getNode sm u := by
  by_cases h1 : u = s
  · subst h1
    by_cases h2 : u < sm.states.length
    · exact Or.inl (getNode_setNode_self sm u n h2)
    · right
      rw [getNode_out _ _ (by rw [setNode_length]; exact Nat.le_of_not_lt h2),
        getNode_out _ _ (Nat.le_of_not_lt h2)]
  · exact Or.inr (getNode_setNode_ne sm s u n h1)

theorem getNode_append_lt (sm : StateMachine T) (l : List (StateNode T)) (u : Nat)
    (hu : u < sm.states.length) :
    getNode ⟨sm.states ++ l⟩ u = getNode sm u := by
  rw [getNode, getNode]
  exact List.getD_append _ _ _ _ hu

theorem getNode_append_self (sm : StateMachine T) (nd : StateNode T) :
    getNode ⟨sm.states ++ [nd]⟩ sm.states.length = nd := by
  rw [getNode, List.getD_append_right _ _ _ _ Nat.le.refl]
  simp

/-- Lengths: `add` grows the machine by zero or one state. -/
theorem add_length_le (sm : StateMachine T) (s : Nat) (cs : CharacterSet) :
    sm.states.length ≤ (sm.add s cs).1.states.length := by
  rw [StateMachine.add]
  cases hf : (getNode sm s).nextStates.find? (fun t => (getNode sm t).charSet == cs) with
  | some t => exact Nat.le.refl
  | none =>
    simp only [setNode_length, List.length_append]
    exact Nat.le_add_right _ _

/-- The state returned by `add` is a valid state id of the grown machine. -/
theorem add_snd_lt (sm : StateMachine T) (s : Nat) (cs : CharacterSet)
    (hwf : SMwf sm = true) : (sm.add s cs).2 < (sm.add s cs).1.states.length := by
  rw [StateMachine.add]
  cases hf : (getNode sm s).nextStates.find? (fun t => (getNode sm t).charSet == cs) with
  | some t =>
    exact (smwf_iff sm).mp hwf s t (List.mem_of_find?_eq_some hf)
  | none =>
    simp only [setNode_length, List.length_append, List.length_cons, List.length_nil]
    exact Nat.lt_succ_self _

/-- `add` preserves machine well-formedness. -/
theorem add_wf (sm : StateMachine T) (s : Nat) (cs : CharacterSet)
    (hwf : SMwf sm = true) : SMwf (sm.add s cs).1 = true := by
  rw [StateMachine.add]
  cases hf : (getNode sm s).nextStates.find? (fun t => (getNode sm t).charSet == cs) with
  | some t => exact hwf
  | none =>
    simp only []
    rw [smwf_iff]
    intro u t ht
    have hlen : (setNode (⟨sm.states ++ [freshNode T cs]⟩ : StateMachine T) s
        { getNode (⟨sm.states ++ [freshNode T cs]⟩ : StateMachine T) s with
          nextStates := (getNode (⟨sm.states ++ [freshNode T cs]⟩ : StateMachine T) s).nextStates
            ++ [sm.states.length] }).states.length = sm.states.length + 1 := by
      rw [setNode_length]
      simp
    rw [hlen]
    have hsub : ∀ v w, w ∈ (getNode (⟨sm.states ++ [freshNode T cs]⟩ : StateMachine T) v).nextStates →
        w < sm.states.length + 1 := by
      intro v w hw
      by_cases hv : v < sm.states.length
      · rw [getNode_append_lt _ _ _ hv] at hw
        exact Nat.lt_succ_of_lt ((smwf_iff sm).mp hwf v w hw)
      · by_cases hv2 : v = sm.states.length
        · subst hv2
          rw [getNode_append_self] at hw
          simp [freshNode] at hw
        · rw [getNode_out _ _ (by
            show (sm.states ++ [freshNode T cs]).length ≤ v
            simp only [List.length_append, List.length_singleton]
            omega)] at hw
          simp [defaultNode] at hw
    rcases getNode_setNode_cases (⟨sm.states ++ [freshNode T cs]⟩ : StateMachine T) s u
        { getNode (⟨sm.states ++ [freshNode T cs]⟩ : StateMachine T) s with
          nextStates := (getNode (⟨sm.states ++ [freshNode T cs]⟩ : StateMachine T) s).nextStates
            ++ [sm.states.length] } with hc | hc
    · rw [hc] at ht
      simp only [List.mem_append, List.mem_singleton] at ht
      rcases ht with ht | ht
      · exact hsub s t ht
      · omega
    · rw [hc] at ht
      exact hsub u t ht

/-- Writing a node that keeps its successor list intact preserves
well-formedness. -/
theorem setNode_keepNext_wf (sm : StateMachine T) (s : Nat) (n : StateNode T)
    (hn : n.nextStates = (getNode sm s).nextStates) (hwf : SMwf sm = true) :
    SMwf (setNode sm s n) = true := by
  rw [smwf_iff]
  intro u t ht
  rw [setNode_length]
  rcases getNode_setNode_cases sm s u n with hc | hc
  · rw [hc, hn] at ht
    exact (smwf_iff sm).mp hwf s t ht
  · rw [hc] at ht
    exact (smwf_iff sm).mp hwf u t ht

theorem addNextState_length (sm : StateMachine T) (s t : Nat) :
    (sm.addNextState s t).states.length = sm.states.length := by
  rw [StateMachine.addNextState, setNode_length]

theorem addNextState_wf (sm : StateMachine T) (s t : Nat)
    (ht : t < sm.states.length) (hwf : SMwf sm = true) :
    SMwf (sm.addNextState s t) = true := by
  rw [smwf_iff]
  intro u v hv
  rw [addNextState_length]
  rcases getNode_setNode_cases sm s u
      { getNode sm s with nextStates := (getNode sm s).nextStates ++ [t] } with hc | hc
  · rw [StateMachine.addNextState] at hv
    rw [hc] at hv
    simp only [List.mem_append, List.mem_singleton] at hv
    rcases hv with hv | hv
    · exact (smwf_iff sm).mp hwf s v hv
    · omega
  · rw [StateMachine.addNextState] at hv
    rw [hc] at hv
    exact (smwf_iff sm).mp hwf u v hv

theorem setFinalState_length (sm : StateMachine T) (s : Nat) :
    (sm.setFinalState s).states.length = sm.states.length := by
  rw [StateMachine.setFinalState, setNode_length]

theorem setFinalState_wf (sm : StateMachine T) (s : Nat) (hwf : SMwf sm = true) :
    SMwf (sm.setFinalState s) = true :=
  setNode_keepNext_wf sm s _ rfl hwf

theorem setHandler_length (sm : StateMachine T) (s : Nat) (h : T) :
    (sm.setHandler s h).states.length = sm.states.length := by
  rw [StateMachine.setHandler, setNode_length]

theorem setHandler_wf (sm : StateMachine T) (s : Nat) (h : T) (hwf : SMwf sm = true) :
    SMwf (sm.setHandler s h) = true :=
  setNode_keepNext_wf sm s _ rfl hwf

theorem startParse_length (sm : StateMachine T) (s : Nat) (nm : List Char) :
    (sm.startParse s nm).states.length = sm.states.length := by
  rw [StateMachine.startParse, setNode_length]

theorem startParse_wf (sm : StateMachine T) (s : Nat) (nm : List Char)
    (hwf : SMwf sm = true) : SMwf (sm.startParse s nm) = true :=
  setNode_keepNext_wf sm s _ rfl hwf

theorem endParse_length (sm : StateMachine T) (s : Nat) :
    (sm.endParse s).states.length = sm.states.length := by
  rw [StateMachine.endParse, setNode_length]

theorem endParse_wf (sm : StateMachine T) (s : Nat) (hwf : SMwf sm = true) :
    SMwf (sm.endParse s) = true :=
  setNode_keepNext_wf sm s _ rfl hwf

/-
Composite well-formedness facts for each compilation helper: each preserves
well-formedness, never shrinks the machine, and lands on a valid state id.
-/

theorem addChars_ok : ∀ (l : List Char) (sm : StateMachine T) (st : Nat),
    SMwf sm = true → st < sm.states.length →
    SMwf (addChars sm st l).1 = true ∧
    sm.states.length ≤ (addChars sm st l).1.states.length ∧
    (addChars sm st l).2 < (addChars sm st l).1.states.length := by
  intro l
  induction l with
  | nil =>
    intro sm st hwf hst
    exact ⟨hwf, Nat.le.refl, hst⟩
  | cons c rest ih =>
    intro sm st hwf hst
    have hstep : addChars sm st (c :: rest) =
        addChars (sm.add st (CharacterSet.fromChar c)).1
          (sm.add st (CharacterSet.fromChar c)).2 rest := rfl
    rw [hstep]
    have h1 := add_wf sm st (CharacterSet.fromChar c) hwf
    have h2 := add_snd_lt sm st (CharacterSet.fromChar c) hwf
    have h3 := add_length_le sm st (CharacterSet.fromChar c)
    obtain ⟨ha, hb, hc⟩ := ih _ _ h1 h2
    exact ⟨ha, Nat.le_trans h3 hb, hc⟩

theorem addSpace_ok (sm : StateMachine T) (st i : Nat)
    (hwf : SMwf sm = true) (hst : st < sm.states.length) :
    SMwf (addSpace sm st i).1 = true ∧
    sm.states.length ≤ (addSpace sm st i).1.states.length ∧
    (addSpace sm st i).2 < (addSpace sm st i).1.states.length := by
  rw [addSpace]
  by_cases hi : i > 0
  · simp only [hi, if_true]
    have h1 := add_wf sm st ((CharacterSet.fromChar ' ').insert '\n') hwf
    have h2 := add_snd_lt sm st ((CharacterSet.fromChar ' ').insert '\n') hwf
    have h3 := add_length_le sm st ((CharacterSet.fromChar ' ').insert '\n')
    refine ⟨addNextState_wf _ _ _ h2 h1, ?_, ?_⟩
    · rw [addNextState_length]
      exact h3
    · rw [addNextState_length]
      exact h2
  · simp only [hi, if_false]
    exact ⟨hwf, Nat.le.refl, hst⟩

theorem addKeyValue_ok (sm : StateMachine T) (name : List Char) (st : Nat)
    (hwf : SMwf sm = true) (hst : st < sm.states.length) :
    SMwf (addKeyValue sm name st).1 = true ∧
    sm.states.length ≤ (addKeyValue sm name st).1.states.length ∧
    (addKeyValue sm name st).2 < (addKeyValue sm name st).1.states.length := by
  obtain ⟨h1, h2, h3⟩ := addChars_ok name sm st hwf hst
  cases hA : addChars sm st name with
  | mk smA stA =>
  rw [hA] at h1 h2 h3
  have h4 := add_wf smA stA (CharacterSet.fromChar '=') h1
  have h5 := add_snd_lt smA stA (CharacterSet.fromChar '=') h1
  have h6 := add_length_le smA stA (CharacterSet.fromChar '=')
  cases hB : smA.add stA (CharacterSet.fromChar '=') with
  | mk smB stB =>
  rw [hB] at h4 h5 h6
  have h7 := add_wf smB stB ((CharacterSet.any.remove ' ').remove '\n') h4
  have h8 := add_snd_lt smB stB ((CharacterSet.any.remove ' ').remove '\n') h4
  have h9 := add_length_le smB stB ((CharacterSet.any.remove ' ').remove '\n')
  cases hC : smB.add stB ((CharacterSet.any.remove ' ').remove '\n') with
  | mk smC stC =>
  rw [hC] at h7 h8 h9
  have hkv : addKeyValue sm name st =
      (((smC.addNextState stC stC).startParse stC name).endParse stC, stC) := by
    simp only [addKeyValue, hA, hB, hC]
  rw [hkv]
  refine ⟨?_, ?_, ?_⟩
  · exact endParse_wf _ _ (startParse_wf _ _ _ (addNextState_wf _ _ _ h8 h7))
  · show sm.states.length ≤
      (((smC.addNextState stC stC).startParse stC name).endParse stC).states.length
    rw [endParse_length, startParse_length, addNextState_length]
    exact Nat.le_trans h2 (Nat.le_trans h6 h9)
  · show stC < (((smC.addNextState stC stC).startParse stC name).endParse stC).states.length
    rw [endParse_length, startParse_length, addNextState_length]
    exact h8

theorem addDynamicSegment_ok (sm : StateMachine T) (name : List Char) (st : Nat)
    (hwf : SMwf sm = true) :
    SMwf (addDynamicSegment sm name st).1 = true ∧
    sm.states.length ≤ (addDynamicSegment sm name st).1.states.length ∧
    (addDynamicSegment sm name st).2 < (addDynamicSegment sm name st).1.states.length := by
  have h1 := add_wf sm st (CharacterSet.any.remove ' ') hwf
  have h2 := add_snd_lt sm st (CharacterSet.any.remove ' ') hwf
  have h3 := add_length_le sm st (CharacterSet.any.remove ' ')
  cases hA : sm.add st (CharacterSet.any.remove ' ') with
  | mk smA stA =>
  rw [hA] at h1 h2 h3
  have heq : addDynamicSegment sm name st =
      ((((smA.addNextState stA stA).startParse stA name).endParse stA), stA) := by
    simp only [addDynamicSegment, hA]
  rw [heq]
  refine ⟨endParse_wf _ _ (startParse_wf _ _ _ (addNextState_wf _ _ _ h2 h1)), ?_, ?_⟩
  · show sm.states.length ≤
      (((smA.addNextState stA stA).startParse stA name).endParse stA).states.length
    rw [endParse_length, startParse_length, addNextState_length]
    exact h3
  · show stA < (((smA.addNextState stA stA).startParse stA name).endParse stA).states.length
    rw [endParse_length, startParse_length, addNextState_length]
    exact h2

theorem addRemainingSegment_ok (sm : StateMachine T) (name : List Char) (st : Nat)
    (hwf : SMwf sm = true) :
    SMwf (addRemainingSegment sm name st).1 = true ∧
    sm.states.length ≤ (addRemainingSegment sm name st).1.states.length ∧
    (addRemainingSegment sm name st).2 <
      (addRemainingSegment sm name st).1.states.length := by
  have h1 := add_wf sm st CharacterSet.any hwf
  have h2 := add_snd_lt sm st CharacterSet.any hwf
  have h3 := add_length_le sm st CharacterSet.any
  cases hA : sm.add st CharacterSet.any with
  | mk smA stA =>
  rw [hA] at h1 h2 h3
  have heq : addRemainingSegment sm name st =
      ((((smA.addNextState stA stA).startParse stA name).endParse stA), stA) := by
    simp only [addRemainingSegment, hA]
  rw [heq]
  refine ⟨endParse_wf _ _ (startParse_wf _ _ _ (addNextState_wf _ _ _ h2 h1)), ?_, ?_⟩
  · show sm.states.length ≤
      (((smA.addNextState stA stA).startParse stA name).endParse stA).states.length
    rw [endParse_length, startParse_length, addNextState_length]
    exact h3
  · show stA < (((smA.addNextState stA stA).startParse stA name).endParse stA).states.length
    rw [endParse_length, startParse_length, addNextState_length]
    exact h2

theorem addCodeSegmentSingleLine_ok (sm : StateMachine T) (name : List Char)
    (st n : Nat) (hwf : SMwf sm = true) (hst : st < sm.states.length) :
    SMwf (addCodeSegmentSingleLine sm name st n).1 = true ∧
    sm.states.length ≤ (addCodeSegmentSingleLine sm name st n).1.states.length ∧
    (addCodeSegmentSingleLine sm name st n).2 <
      (addCodeSegmentSingleLine sm name st n).1.states.length := by
  obtain ⟨h1, h2, h3⟩ := addChars_ok (List.replicate n '\x60') sm st hwf hst
  cases hA : addChars sm st (List.replicate n '\x60') with
  | mk smA stA =>
  rw [hA] at h1 h2 h3
  have h4 := add_wf smA stA CharacterSet.any h1
  have h5 := add_snd_lt smA stA CharacterSet.any h1
  have h6 := add_length_le smA stA CharacterSet.any
  cases hB : smA.add stA CharacterSet.any with
  | mk smB stB =>
  rw [hB] at h4 h5 h6
  have h7 := endParse_wf _ stB (startParse_wf _ stB name (addNextState_wf smB stB stB h5 h4))
  have hlen : (((smB.addNextState stB stB).startParse stB name).endParse stB).states.length
      = smB.states.length := by
    rw [endParse_length, startParse_length, addNextState_length]
  obtain ⟨h8, h9, h10⟩ := addChars_ok (List.replicate n '\x60')
      (((smB.addNextState stB stB).startParse stB name).endParse stB) stB h7
      (by rw [hlen]; exact h5)
  have heq : addCodeSegmentSingleLine sm name st n =
      addChars (((smB.addNextState stB stB).startParse stB name).endParse stB) stB
        (List.replicate n '\x60') := by
    simp only [addCodeSegmentSingleLine, hA, hB]
  rw [heq]
  refine ⟨h8, ?_, h10⟩
  rw [hlen] at h9
  exact Nat.le_trans h2 (Nat.le_trans h6 h9)

theorem addCodeSegmentMultiLine_ok (sm : StateMachine T) (name : List Char)
    (st : Nat) (hwf : SMwf sm = true) :
    SMwf (addCodeSegmentMultiLine sm name st).1 = true ∧
    sm.states.length ≤ (addCodeSegmentMultiLine sm name st).1.states.length ∧
    (addCodeSegmentMultiLine sm name st).2 <
      (addCodeSegmentMultiLine sm name st).1.states.length := by
  have h1 := add_wf sm st (CharacterSet.fromChar '\x60') hwf
  have h2 := add_snd_lt sm st (CharacterSet.fromChar '\x60') hwf
  have h3 := add_length_le sm st (CharacterSet.fromChar '\x60')
  cases hA : sm.add st (CharacterSet.fromChar '\x60') with
  | mk smA stA =>
  rw [hA] at h1 h2 h3
  have h4 := add_wf smA stA (CharacterSet.fromChar '\x60') h1
  have h5 := add_snd_lt smA stA (CharacterSet.fromChar '\x60') h1
  have h6 := add_length_le smA stA (CharacterSet.fromChar '\x60')
  cases hB : smA.add stA (CharacterSet.fromChar '\x60') with
  | mk smB stB =>
  rw [hB] at h4 h5 h6
  have h7 := add_wf smB stB (CharacterSet.fromChar '\x60') h4
  have h8 := add_snd_lt smB stB (CharacterSet.fromChar '\x60') h4
  have h9 := add_length_le smB stB (CharacterSet.fromChar '\x60')
  cases hC : smB.add stB (CharacterSet.fromChar '\x60') with
  | mk smC lambda =>
  rw [hC] at h7 h8 h9
  have h10 := add_wf smC lambda (((CharacterSet.any.remove '\x60').remove ' ').remove '\n') h7
  have h11 := add_snd_lt smC lambda (((CharacterSet.any.remove '\x60').remove ' ').remove '\n') h7
  have h12 := add_length_le smC lambda (((CharacterSet.any.remove '\x60').remove ' ').remove '\n')
  cases hD : smC.add lambda (((CharacterSet.any.remove '\x60').remove ' ').remove '\n') with
  | mk smD stD =>
  rw [hD] at h10 h11 h12
  have h13 := addNextState_wf smD stD stD h11 h10
  have hlenD : (smD.addNextState stD stD).states.length = smD.states.length :=
    addNextState_length smD stD stD
  have h14 := add_wf (smD.addNextState stD stD) stD (CharacterSet.fromChar '\n') h13
  have h15 := add_snd_lt (smD.addNextState stD stD) stD (CharacterSet.fromChar '\n') h13
  have h16 := add_length_le (smD.addNextState stD stD) stD (CharacterSet.fromChar '\n')
  cases hE : (smD.addNextState stD stD).add stD (CharacterSet.fromChar '\n') with
  | mk smE stE =>
  rw [hE] at h14 h15 h16
  have h17 := addNextState_wf smE lambda stE h15 h14
  have hlenE : (smE.addNextState lambda stE).states.length = smE.states.length :=
    addNextState_length smE lambda stE
  have h18 := add_wf (smE.addNextState lambda stE) stE CharacterSet.any h17
  have h19 := add_snd_lt (smE.addNextState lambda stE) stE CharacterSet.any h17
  have h20 := add_length_le (smE.addNextState lambda stE) stE CharacterSet.any
  cases hF : (smE.addNextState lambda stE).add stE CharacterSet.any with
  | mk smF stF =>
  rw [hF] at h18 h19 h20
  have h21 := endParse_wf _ stF
      (startParse_wf _ stF name (addNextState_wf smF stF stF h19 h18))
  have hlenF : (((smF.addNextState stF stF).startParse stF name).endParse stF).states.length
      = smF.states.length := by
    rw [endParse_length, startParse_length, addNextState_length]
  have h22 := add_wf (((smF.addNextState stF stF).startParse stF name).endParse stF) stF
      (CharacterSet.fromChar '\x60') h21
  have h23 := add_snd_lt (((smF.addNextState stF stF).startParse stF name).endParse stF) stF
      (CharacterSet.fromChar '\x60') h21
  have h24 := add_length_le (((smF.addNextState stF stF).startParse stF name).endParse stF) stF
      (CharacterSet.fromChar '\x60')
  cases hG : (((smF.addNextState stF stF).startParse stF name).endParse stF).add stF
      (CharacterSet.fromChar '\x60') with
  | mk smG stG =>
  rw [hG] at h22 h23 h24
  have h25 := add_wf smG stG (CharacterSet.fromChar '\x60') h22
  have h26 := add_snd_lt smG stG (CharacterSet.fromChar '\x60') h22
  have h27 := add_length_le smG stG (CharacterSet.fromChar '\x60')
  cases hH : smG.add stG (CharacterSet.fromChar '\x60') with
  | mk smH stH =>
  rw [hH] at h25 h26 h27
  have h28 := add_wf smH stH (CharacterSet.fromChar '\x60') h25
  have h29 := add_snd_lt smH stH (CharacterSet.fromChar '\x60') h25
  have h30 := add_length_le smH stH (CharacterSet.fromChar '\x60')
  have heq : addCodeSegmentMultiLine sm name st = smH.add stH (CharacterSet.fromChar '\x60') := by
    simp only [addCodeSegmentMultiLine, hA, hB, hC, hD, hE, hF, hG, hH]
  rw [heq]
  refine ⟨h28, ?_, h29⟩
  rw [hlenF] at h24
  rw [hlenE] at h20
  rw [hlenD] at h16
  dsimp only at h3 h6 h9 h12 h16 h20 h24 h27 h30 ⊢
  omega

theorem addHelpMenu_ok (sm : StateMachine T) (cmd : List Char) (st : Nat)
    (hwf : SMwf sm = true) (hst : st < sm.states.length) :
    SMwf (addHelpMenu sm cmd st).1 = true ∧
    sm.states.length ≤ (addHelpMenu sm cmd st).1.states.length ∧
    (addHelpMenu sm cmd st).2 < (addHelpMenu sm cmd st).1.states.length := by
  obtain ⟨h1, h2, h3⟩ := addChars_ok ['?', 'h', 'e', 'l', 'p'] sm st hwf hst
  cases hA : addChars sm st ['?', 'h', 'e', 'l', 'p'] with
  | mk smA stA =>
  rw [hA] at h1 h2 h3
  obtain ⟨h4, h5, h6⟩ := addSpace_ok smA stA 1 h1 h3
  cases hB : addSpace smA stA 1 with
  | mk smB stB =>
  rw [hB] at h4 h5 h6
  obtain ⟨h7, h8, h9⟩ := addChars_ok cmd smB stB h4 h6
  have heq : addHelpMenu sm cmd st = addChars smB stB cmd := by
    simp only [addHelpMenu, hA, hB]
  rw [heq]
  exact ⟨h7, Nat.le_trans h2 (Nat.le_trans h5 h8), h9⟩

/-- Well-formedness of the `add_protected` loop state: the machine is
well-formed and every recorded state id is valid. -/
def LoopWF (l : LoopState T) : Prop :=
  SMwf l.sm = true ∧ l.state < l.sm.states.length ∧
  (∀ s ∈ l.optFinalStates, s < l.sm.states.length) ∧
  (∀ L, l.optLambdaState = some L → L < l.sm.states.length)

/-- The shape of one loop iteration on a key/value segment that continues an
existing run: attach from the hub, loop back to the hub, push the landing
state; no whitespace edge is built. -/
theorem segmentStep_kv_cont (i : Nat) (seg name : List Char) (l : LoopState T) (L : Nat)
    (hkv : keyValuePair seg = some name) (hlam : l.optLambdaState = some L) :
    segmentStep i seg l = some
      { sm := (addKeyValue l.sm name L).1.addNextState (addKeyValue l.sm name L).2 L,
        state := (addKeyValue l.sm name L).2,
        optLambdaState := some L,
        optFinalStates := l.optFinalStates ++ [(addKeyValue l.sm name L).2] } := by
  simp only [segmentStep, hkv, hlam]

/-- The shape of one loop iteration on the key/value segment that begins a
run: push the pre-run state, build the whitespace hub, attach the first
key/value path from it, loop back, and push the landing state. -/
theorem segmentStep_kv_first (i : Nat) (seg name : List Char) (l : LoopState T)
    (hkv : keyValuePair seg = some name) (hlam : l.optLambdaState = none) :
    segmentStep i seg l = some
      { sm := (addKeyValue (addSpace l.sm l.state i).1 name (addSpace l.sm l.state i).2).1.addNextState
                (addKeyValue (addSpace l.sm l.state i).1 name (addSpace l.sm l.state i).2).2
                (addSpace l.sm l.state i).2,
        state := (addKeyValue (addSpace l.sm l.state i).1 name (addSpace l.sm l.state i).2).2,
        optLambdaState := some (addSpace l.sm l.state i).2,
        optFinalStates := (l.optFinalStates ++ [l.state]) ++
          [(addKeyValue (addSpace l.sm l.state i).1 name (addSpace l.sm l.state i).2).2] } := by
  simp only [segmentStep, hkv, hlam]

/-- A non-key/value segment resets the hub and the accumulated final
states. -/
theorem segmentStep_nonkv (i : Nat) (seg : List Char) (l l' : LoopState T)
    (hkv : keyValuePair seg = none) (hs : segmentStep i seg l = some l') :
    l'.optLambdaState = none ∧ l'.optFinalStates = [] := by
  simp only [segmentStep, hkv] at hs
  rcases Option.map_eq_some'.mp hs with ⟨p, hp, rfl⟩
  exact ⟨rfl, rfl⟩

/-- One loop iteration preserves loop well-formedness and never shrinks the
machine. -/
theorem segmentStep_ok (i : Nat) (seg : List Char) (l l' : LoopState T)
    (hwf : LoopWF l) (hs : segmentStep i seg l = some l') :
    LoopWF l' ∧ l.sm.states.length ≤ l'.sm.states.length := by
  obtain ⟨hw, hst, hfin, hlam⟩ := hwf
  cases hkv : keyValuePair seg with
  | some name =>
    cases hlamc : l.optLambdaState with
    | some L =>
      have hL := hlam L hlamc
      obtain ⟨k1, k2, k3⟩ := addKeyValue_ok l.sm name L hw hL
      rw [segmentStep_kv_cont i seg name l L hkv hlamc] at hs
      cases hs
      have hlen : ((addKeyValue l.sm name L).1.addNextState (addKeyValue l.sm name L).2
          L).states.length = (addKeyValue l.sm name L).1.states.length :=
        addNextState_length _ _ _
      refine ⟨⟨?_, ?_, ?_, ?_⟩, ?_⟩
      · exact addNextState_wf _ _ _ (Nat.lt_of_lt_of_le hL k2) k1
      · dsimp only
        rw [hlen]
        exact k3
      · dsimp only
        intro s hsme
        rw [hlen]
        rcases List.mem_append.mp hsme with hm | hm
        · exact Nat.lt_of_lt_of_le (hfin s hm) k2
        · rw [List.mem_singleton] at hm
          subst hm
          exact k3
      · dsimp only
        intro L2 hL2
        cases hL2
        rw [hlen]
        exact Nat.lt_of_lt_of_le hL k2
      · dsimp only
        rw [hlen]
        exact k2
    | none =>
      obtain ⟨s1, s2, s3⟩ := addSpace_ok l.sm l.state i hw hst
      obtain ⟨k1, k2, k3⟩ := addKeyValue_ok (addSpace l.sm l.state i).1 name
          (addSpace l.sm l.state i).2 s1 s3
      rw [segmentStep_kv_first i seg name l hkv hlamc] at hs
      cases hs
      have hlen : ((addKeyValue (addSpace l.sm l.state i).1 name
          (addSpace l.sm l.state i).2).1.addNextState
            (addKeyValue (addSpace l.sm l.state i).1 name (addSpace l.sm l.state i).2).2
            (addSpace l.sm l.state i).2).states.length =
          (addKeyValue (addSpace l.sm l.state i).1 name
            (addSpace l.sm l.state i).2).1.states.length :=
        addNextState_length _ _ _
      refine ⟨⟨?_, ?_, ?_, ?_⟩, ?_⟩
      · exact addNextState_wf _ _ _ (Nat.lt_of_lt_of_le s3 k2) k1
      · dsimp only
        rw [hlen]
        exact k3
      · dsimp only
        intro s hsme
        rw [hlen]
        rcases List.mem_append.mp hsme with hm | hm
        · rcases List.mem_append.mp hm with hm2 | hm2
          · exact Nat.lt_of_lt_of_le (hfin s hm2) (Nat.le_trans s2 k2)
          · rw [List.mem_singleton] at hm2
            subst hm2
            exact Nat.lt_of_lt_of_le hst (Nat.le_trans s2 k2)
        · rw [List.mem_singleton] at hm
          subst hm
          exact k3
      · dsimp only
        intro L2 hL2
        cases hL2
        rw [hlen]
        exact Nat.lt_of_lt_of_le s3 k2
      · dsimp only
        rw [hlen]
        exact Nat.le_trans s2 k2
  | none =>
    simp only [segmentStep, hkv] at hs
    rcases Option.map_eq_some'.mp hs with ⟨p, hp, rfl⟩
    obtain ⟨s1, s2, s3⟩ := addSpace_ok l.sm l.state i hw hst
    have hcore : SMwf p.1 = true ∧
        (addSpace l.sm l.state i).1.states.length ≤ p.1.states.length ∧
        p.2 < p.1.states.length := by
      split at hp
      · rcases Option.map_eq_some'.mp hp with ⟨name, hname, rfl⟩
        obtain ⟨c1, c2, c3⟩ := addCodeSegmentMultiLine_ok (addSpace l.sm l.state i).1 name
            (addSpace l.sm l.state i).2 s1
        exact ⟨c1, c2, c3⟩
      · split at hp
        · rcases Option.map_eq_some'.mp hp with ⟨name, hname, rfl⟩
          obtain ⟨c1, c2, c3⟩ := addCodeSegmentSingleLine_ok (addSpace l.sm l.state i).1 name
              (addSpace l.sm l.state i).2 3 s1 s3
          exact ⟨c1, c2, c3⟩
        · split at hp
          · rcases Option.map_eq_some'.mp hp with ⟨name, hname, rfl⟩
            obtain ⟨c1, c2, c3⟩ := addCodeSegmentSingleLine_ok (addSpace l.sm l.state i).1 name
                (addSpace l.sm l.state i).2 1 s1 s3
            exact ⟨c1, c2, c3⟩
          · split at hp
            · rcases Option.map_eq_some'.mp hp with ⟨name, hname, rfl⟩
              obtain ⟨c1, c2, c3⟩ := addDynamicSegment_ok (addSpace l.sm l.state i).1 name
                  (addSpace l.sm l.state i).2 s1
              exact ⟨c1, c2, c3⟩
            · split at hp
              · cases hp
                obtain ⟨c1, c2, c3⟩ := addRemainingSegment_ok (addSpace l.sm l.state i).1
                    (seg.take (seg.length - 3)) (addSpace l.sm l.state i).2 s1
                exact ⟨c1, c2, c3⟩
              · cases hp
                obtain ⟨c1, c2, c3⟩ := addChars_ok seg (addSpace l.sm l.state i).1
                    (addSpace l.sm l.state i).2 s1 s3
                exact ⟨c1, c2, c3⟩
    obtain ⟨c1, c2, c3⟩ := hcore
    refine ⟨⟨c1, c3, ?_, ?_⟩, Nat.le_trans s2 c2⟩
    · intro s hsme
      simp at hsme
    · intro L2 hL2
      cases hL2

theorem addProtectedLoop_append (A B : List (Nat × List Char)) (l : LoopState T) :
    addProtectedLoop (A ++ B) l = (addProtectedLoop A l).bind (addProtectedLoop B) := by
  induction A generalizing l with
  | nil => simp [addProtectedLoop]
  | cons x rest ih =>
    cases x with
    | mk i seg =>
    simp only [List.cons_append, addProtectedLoop]
    cases segmentStep i seg l with
    | none => simp
    | some l1 => simp [ih l1]

theorem addProtectedLoop_ok : ∀ (segs : List (Nat × List Char)) (l l' : LoopState T),
    LoopWF l → addProtectedLoop segs l = some l' →
    LoopWF l' ∧ l.sm.states.length ≤ l'.sm.states.length := by
  intro segs
  induction segs with
  | nil =>
    intro l l' hwf h
    cases h
    exact ⟨hwf, Nat.le.refl⟩
  | cons x rest ih =>
    intro l l' hwf h
    cases x with
    | mk i seg =>
    simp only [addProtectedLoop] at h
    cases hstep : segmentStep i seg l with
    | none =>
      rw [hstep] at h
      simp at h
    | some l1 =>
      rw [hstep] at h
      simp only [Option.some_bind] at h
      obtain ⟨w1, w2⟩ := segmentStep_ok i seg l l1 hwf hstep
      obtain ⟨w3, w4⟩ := ih l1 l' w1 h
      exact ⟨w3, Nat.le_trans w2 w4⟩

/-- The chain of key/value segments processed while the hub is set: each one
appends exactly its landing state to the accumulated final-state list, and
the landing states are those reached after each prefix of the chain. -/
theorem kvChain : ∀ (ek : List (Nat × List Char)) (l : LoopState T) (L : Nat),
    (∀ p ∈ ek, (keyValuePair p.2).isSome = true) →
    l.optLambdaState = some L → LoopWF l →
    ∃ l' ends, addProtectedLoop ek l = some l' ∧
      l'.optLambdaState = some L ∧
      l'.optFinalStates = l.optFinalStates ++ ends ∧
      ends.length = ek.length ∧
      (∀ j, j < ek.length → ∃ lj, addProtectedLoop (ek.take (j + 1)) l = some lj ∧
        ends.get? j = some lj.state) ∧
      LoopWF l' ∧ l.sm.states.length ≤ l'.sm.states.length := by
  intro ek
  induction ek with
  | nil =>
    intro l L hkv hlam hwf
    refine ⟨l, [], rfl, hlam, by simp, rfl, ?_, hwf, Nat.le.refl⟩
    intro j hj
    simp at hj
  | cons x rest ih =>
    intro l L hkv hlam hwf
    cases x with
    | mk i seg =>
    have hkvx : (keyValuePair seg).isSome = true := hkv (i, seg) (List.mem_cons_self _ _)
    obtain ⟨name, hname⟩ := Option.isSome_iff_exists.mp hkvx
    have hstep := segmentStep_kv_cont i seg name l L hname hlam
    obtain ⟨w1, w2⟩ := segmentStep_ok i seg l _ ⟨hwf.1, hwf.2.1, hwf.2.2.1, hwf.2.2.2⟩ hstep
    obtain ⟨l', ends', h1, h2, h3, h4, h5, h6, h7⟩ :=
      ih _ L (fun p hp => hkv p (List.mem_cons_of_mem _ hp)) rfl w1
    refine ⟨l', (addKeyValue l.sm name L).2 :: ends', ?_, h2, ?_, ?_, ?_, h6, ?_⟩
    · simp only [addProtectedLoop, hstep, Option.some_bind]
      exact h1
    · rw [h3]
      dsimp only
      rw [List.append_assoc]
      rfl
    · simp [h4]
    · intro j hj
      cases j with
      | zero =>
        refine ⟨{ sm := (addKeyValue l.sm name L).1.addNextState (addKeyValue l.sm name L).2 L,
                  state := (addKeyValue l.sm name L).2,
                  optLambdaState := some L,
                  optFinalStates := l.optFinalStates ++ [(addKeyValue l.sm name L).2] },
                ?_, rfl⟩
        simp only [List.take_succ_cons, List.take_zero, addProtectedLoop, hstep,
          Option.some_bind]
      | succ j2 =>
        have hj2 : j2 < rest.length := by
          simpa using hj
        obtain ⟨lj, hlj1, hlj2⟩ := h5 j2 hj2
        refine ⟨lj, ?_, ?_⟩
        · simp only [List.take_succ_cons, addProtectedLoop, hstep, Option.some_bind]
          exact hlj1
        · simpa using hlj2
    · dsimp only at w2
      exact Nat.le_trans w2 h7

theorem enumFrom_append_eq (A B : List (List Char)) : ∀ (n : Nat),
    (A ++ B).enumFrom n = A.enumFrom n ++ B.enumFrom (n + A.length) := by
  induction A with
  | nil => intro n; simp [List.enumFrom]
  | cons a A2 ih =>
    intro n
    have h1 : ((a :: A2) ++ B).enumFrom n = (n, a) :: (A2 ++ B).enumFrom (n + 1) := rfl
    have h2 : (a :: A2).enumFrom n ++ B.enumFrom (n + (a :: A2).length) =
        (n, a) :: (A2.enumFrom (n + 1) ++ B.enumFrom (n + 1 + A2.length)) := by
      have harith : n + (a :: A2).length = n + 1 + A2.length := by
        simp only [List.length_cons]
        omega
      rw [harith]
      rfl
    rw [h1, h2, ih (n + 1)]

theorem snd_mem_of_mem_enumFrom (B : List (List Char)) : ∀ (n : Nat)
    (p : Nat × List Char), p ∈ B.enumFrom n → p.2 ∈ B := by
  induction B with
  | nil => intro n p hp; simp [List.enumFrom] at hp
  | cons b B2 ih =>
    intro n p hp
    simp only [List.enumFrom, List.mem_cons] at hp
    rcases hp with hp | hp
    · subst hp
      exact List.mem_cons_self _ _
    · exact List.mem_cons_of_mem _ (ih (n + 1) p hp)

theorem markFinal_length (sm : StateMachine T) (s : Nat) (h : T) :
    (markFinal sm s h).states.length = sm.states.length := by
  rw [markFinal, setHandler_length, setFinalState_length]

theorem getNode_markFinal_self (sm : StateMachine T) (s : Nat) (h : T)
    (hs : s < sm.states.length) :
    getNode (markFinal sm s h) s =
      { getNode sm s with isFinal := true, handler := some h } := by
  rw [markFinal, StateMachine.setHandler,
    getNode_setNode_self _ _ _ (by rw [setFinalState_length]; exact hs),
    StateMachine.setFinalState, getNode_setNode_self _ _ _ hs]

theorem getNode_markFinal_ne (sm : StateMachine T) (s u : Nat) (h : T)
    (hne : u ≠ s) : getNode (markFinal sm s h) u = getNode sm u := by
  rw [markFinal, StateMachine.setHandler, getNode_setNode_ne _ _ _ _ hne,
    StateMachine.setFinalState, getNode_setNode_ne _ _ _ _ hne]

theorem foldl_markFinal_length : ∀ (fins : List Nat) (sm : StateMachine T) (h : T),
    (fins.foldl (fun acc s => markFinal acc s h) sm).states.length =
      sm.states.length := by
  intro fins
  induction fins with
  | nil => intro sm h; rfl
  | cons y ys ih =>
    intro sm h
    simp only [List.foldl_cons]
    rw [ih, markFinal_length]

theorem foldl_markFinal_untouched : ∀ (fins : List Nat) (sm : StateMachine T) (h : T)
    (u : Nat), u ∉ fins →
    getNode (fins.foldl (fun acc s => markFinal acc s h) sm) u = getNode sm u := by
  intro fins
  induction fins with
  | nil => intro sm h u _; rfl
  | cons y ys ih =>
    intro sm h u hu
    simp only [List.mem_cons, not_or] at hu
    simp only [List.foldl_cons]
    rw [ih _ _ _ hu.2, getNode_markFinal_ne _ _ _ _ hu.1]

/-- Every state in the list handed to the closing loop ends up final and
bound to the handler. -/
theorem foldl_markFinal_marks : ∀ (fins : List Nat) (sm : StateMachine T) (h : T)
    (u : Nat), u ∈ fins → u < sm.states.length →
    (getNode (fins.foldl (fun acc s => markFinal acc s h) sm) u).isFinal = true ∧
    (getNode (fins.foldl (fun acc s => markFinal acc s h) sm) u).handler = some h := by
  intro fins
  induction fins with
  | nil =>
    intro sm h u hu
    simp at hu
  | cons y ys ih =>
    intro sm h u hu hlt
    simp only [List.foldl_cons]
    by_cases hy : u ∈ ys
    · exact ih (markFinal sm y h) h u hy (by rw [markFinal_length]; exact hlt)
    · have huy : u = y := by
        rcases List.mem_cons.mp hu with h1 | h1
        · exact h1
        · exact absurd h1 hy
      subst huy
      rw [foldl_markFinal_untouched ys (markFinal sm u h) h u hy,
        getNode_markFinal_self sm u h hlt]
      exact ⟨rfl, rfl⟩

/-- The initial loop state of `Commands::add_protected` (`state = 0`, no
hub, no accumulated final states). -/
def initLoop (sm : StateMachine T) : LoopState T :=
  { sm := sm, state := 0, optLambdaState := none, optFinalStates := [] }

theorem addProtected_eq_loop (sm : StateMachine T) (cmd : List Char) (h : T) :
    addProtected sm cmd h =
      (addProtectedLoop (splitSegments cmd).enum (initLoop sm)).map
        (fun l =>
          if l.optLambdaState.isSome then
            l.optFinalStates.foldl (fun acc s => markFinal acc s h) l.sm
          else
            markFinal l.sm l.state h) := rfl

/-- After the segment loop has processed a block of segments whose last one
is not a key/value segment (or an empty block, starting fresh), the hub is
unset and the accumulated final-state list is empty. -/
theorem loop_reset_after_nonkv (pre : List (List Char)) (init l0 : LoopState T)
    (hpre : ∀ seg, pre.getLast? = some seg → keyValuePair seg = none)
    (hinit : init.optLambdaState = none ∧ init.optFinalStates = [])
    (hl0 : addProtectedLoop pre.enum init = some l0) :
    l0.optLambdaState = none ∧ l0.optFinalStates = [] := by
  rcases List.eq_nil_or_concat pre with rfl | ⟨pre2, last, rfl⟩
  · cases hl0
    exact hinit
  · have hlast : keyValuePair last = none := by
      apply hpre last
      rw [List.concat_eq_append, List.getLast?_concat]
    have henum : (pre2.concat last).enum = pre2.enum ++ [(pre2.length, last)] := by
      rw [List.concat_eq_append]
      show (pre2 ++ [last]).enumFrom 0 = pre2.enumFrom 0 ++ [(pre2.length, last)]
      rw [enumFrom_append_eq]
      simp [List.enumFrom]
    rw [henum, addProtectedLoop_append] at hl0
    cases hmid : addProtectedLoop pre2.enum init with
    | none =>
      rw [hmid] at hl0
      simp at hl0
    | some lmid =>
      rw [hmid] at hl0
      simp only [Option.some_bind] at hl0
      simp only [addProtectedLoop] at hl0
      cases hstep : segmentStep pre2.length last lmid with
      | none =>
        rw [hstep] at hl0
        simp at hl0
      | some lx =>
        rw [hstep] at hl0
        simp only [Option.some_bind] at hl0
        cases hl0
        exact segmentStep_nonkv _ _ _ _ hlast hstep

/-- Claim C1: for a template whose segment list ends in a contiguous run of
k >= 1 key/value segments (and whose earlier segments, if any, end with a
non-key/value segment), the registration loop accumulates exactly k + 1
final-eligible states - the state reached just before the run at position 0
and the landing state of the j-th key/value segment at position j - and
`add_protected` marks exactly the states of that list final, binding every
one of them to the same handler value. -/
theorem c1_kv_run_prefix_final_states (T : Type) (sm : StateMachine T) (h : T)
    (cmd : List Char) (pre kvs : List (List Char)) (l0 : LoopState T)
    (hwf0 : SMwf sm = true) (hlen0 : 0 < sm.states.length)
    (hsplit : splitSegments cmd = pre ++ kvs)
    (hkv : ∀ seg ∈ kvs, (keyValuePair seg).isSome = true)
    (hk : kvs ≠ [])
    (hpre : ∀ seg, pre.getLast? = some seg → keyValuePair seg = none)
    (hl0 : addProtectedLoop pre.enum (initLoop sm) = some l0) :
    ∃ lF, addProtectedLoop (splitSegments cmd).enum (initLoop sm) = some lF ∧
      lF.optFinalStates.length = kvs.length + 1 ∧
      (∀ j, j ≤ kvs.length → ∃ lj,
        addProtectedLoop ((splitSegments cmd).enum.take (pre.length + j))
          (initLoop sm) = some lj ∧
        lF.optFinalStates.get? j = some lj.state) ∧
      addProtected sm cmd h =
        some (lF.optFinalStates.foldl (fun acc s => markFinal acc s h) lF.sm) ∧
      (∀ s ∈ lF.optFinalStates,
        (getNode (lF.optFinalStates.foldl (fun acc s => markFinal acc s h) lF.sm)
          s).isFinal = true ∧
        (getNode (lF.optFinalStates.foldl (fun acc s => markFinal acc s h) lF.sm)
          s).handler = some h) := by
  have hiwf : LoopWF (initLoop sm) := by
    refine ⟨hwf0, hlen0, ?_, ?_⟩
    · intro s hs
      simp [initLoop] at hs
    · intro L hL
      simp [initLoop] at hL
  obtain ⟨hl0wf, hl0len⟩ := addProtectedLoop_ok pre.enum _ l0 hiwf hl0
  obtain ⟨hl0lam, hl0fin⟩ := loop_reset_after_nonkv pre (initLoop sm) l0 hpre ⟨rfl, rfl⟩ hl0
  cases kvs with
  | nil => exact absurd rfl hk
  | cons kv1 krest =>
  have hkv1 : (keyValuePair kv1).isSome = true := hkv kv1 (List.mem_cons_self _ _)
  obtain ⟨name1, hname1⟩ := Option.isSome_iff_exists.mp hkv1
  obtain ⟨l1, hstep1, hl1shape, hl1some⟩ :
      ∃ l1, segmentStep pre.length kv1 l0 = some l1 ∧
        l1.optFinalStates = [l0.state, l1.state] ∧
        l1.optLambdaState.isSome = true := by
    refine ⟨_, segmentStep_kv_first pre.length kv1 name1 l0 hname1 hl0lam, ?_, rfl⟩
    dsimp only
    rw [hl0fin]
    rfl
  obtain ⟨L, hl1lam⟩ := Option.isSome_iff_exists.mp hl1some
  obtain ⟨hl1wf, hl1len⟩ := segmentStep_ok pre.length kv1 l0 l1 hl0wf hstep1
  have hkrest : ∀ p ∈ krest.enumFrom (pre.length + 1), (keyValuePair p.2).isSome = true :=
    fun p hp => hkv p.2 (List.mem_cons_of_mem _ (snd_mem_of_mem_enumFrom krest _ p hp))
  obtain ⟨lF, ends, hloopk, hlamF, hfinsF, hlenEnds, hjs, hFwf, hlenF⟩ :=
    kvChain (krest.enumFrom (pre.length + 1)) l1 L hkrest hl1lam hl1wf
  have hfull : (splitSegments cmd).enum =
      pre.enum ++ ((pre.length, kv1) :: krest.enumFrom (pre.length + 1)) := by
    rw [hsplit]
    show (pre ++ (kv1 :: krest)).enumFrom 0 =
      pre.enumFrom 0 ++ ((pre.length, kv1) :: krest.enumFrom (pre.length + 1))
    rw [enumFrom_append_eq]
    simp [List.enumFrom]
  have hpreLen : pre.enum.length = pre.length := List.enum_length
  have hloopfull : addProtectedLoop (splitSegments cmd).enum (initLoop sm) = some lF := by
    rw [hfull, addProtectedLoop_append, hl0]
    simp only [Option.some_bind, addProtectedLoop, hstep1]
    exact hloopk
  have hfins2 : lF.optFinalStates = l0.state :: l1.state :: ends := by
    rw [hfinsF, hl1shape]
    rfl
  have hendsLen : ends.length = krest.length := by
    rw [hlenEnds, List.enumFrom_length]
  refine ⟨lF, hloopfull, ?_, ?_, ?_, ?_⟩
  · rw [hfins2]
    simp [hendsLen]
  · have htake : ∀ i : Nat,
        List.take (pre.length + i)
          (pre.enum ++ ((pre.length, kv1) :: krest.enumFrom (pre.length + 1))) =
        pre.enum ++ List.take i ((pre.length, kv1) :: krest.enumFrom (pre.length + 1)) := by
      intro i
      rw [← hpreLen]
      exact List.take_append i
    intro j hj
    match j with
    | 0 =>
      refine ⟨l0, ?_, ?_⟩
      · rw [hfull, htake 0]
        simp only [List.take_zero, List.append_nil]
        exact hl0
      · rw [hfins2]
        rfl
    | 1 =>
      refine ⟨l1, ?_, ?_⟩
      · rw [hfull, htake 1, addProtectedLoop_append, hl0]
        simp only [Option.some_bind, List.take_succ_cons, List.take_zero]
        simp only [addProtectedLoop, hstep1, Option.some_bind]
      · rw [hfins2]
        rfl
    | (j2 + 2) =>
      have hj2 : j2 < (krest.enumFrom (pre.length + 1)).length := by
        rw [List.enumFrom_length]
        simp only [List.length_cons] at hj
        omega
      obtain ⟨lj, hlj1, hlj2⟩ := hjs j2 hj2
      refine ⟨lj, ?_, ?_⟩
      · rw [hfull, htake (j2 + 2), addProtectedLoop_append, hl0]
        simp only [Option.some_bind, List.take_succ_cons]
        simp only [addProtectedLoop, hstep1, Option.some_bind]
        exact hlj1
      · rw [hfins2]
        simpa using hlj2
  · rw [addProtected_eq_loop, hloopfull]
    simp only [Option.map_some']
    rw [hlamF]
    rfl
  · intro s hs
    obtain ⟨hFw, hFst, hFfin, hFlam⟩ := hFwf
    have hsrange : s < lF.sm.states.length := hFfin s hs
    exact foldl_markFinal_marks lF.optFinalStates lF.sm h s hs hsrange

/-- Concrete data for exercising the key/value-run registration: an empty
machine, the template of spec section 8 and its segment split. -/
def c1sm : StateMachine Nat := StateMachine.new Nat

/-- The template of spec section 8, with the brace characters escaped. -/
def c1cmd : List Char :=
  "?cfg set a=".toList ++ ['\x7b', '\x7d'] ++ " b=".toList ++ ['\x7b', '\x7d']

def c1pre : List (List Char) := [['?', 'c', 'f', 'g'], ['s', 'e', 't']]

def c1kvs : List (List Char) :=
  [['a', '=', '\x7b', '\x7d'], ['b', '=', '\x7b', '\x7d']]

def c1l0 : LoopState Nat :=
  (addProtectedLoop c1pre.enum (initLoop c1sm)).getD (initLoop c1sm)

/-- Witness for claim C1 at the concrete template of spec section 8. -/
theorem c1_witness :
    ∃ lF, addProtectedLoop (splitSegments c1cmd).enum (initLoop c1sm) = some lF ∧
      lF.optFinalStates.length = c1kvs.length + 1 ∧
      (∀ j, j ≤ c1kvs.length → ∃ lj,
        addProtectedLoop ((splitSegments c1cmd).enum.take (c1pre.length + j))
          (initLoop c1sm) = some lj ∧
        lF.optFinalStates.get? j = some lj.state) ∧
      addProtected c1sm c1cmd 7 =
        some (lF.optFinalStates.foldl (fun acc s => markFinal acc s 7) lF.sm) ∧
      (∀ s ∈ lF.optFinalStates,
        (getNode (lF.optFinalStates.foldl (fun acc s => markFinal acc s 7) lF.sm)
          s).isFinal = true ∧
        (getNode (lF.optFinalStates.foldl (fun acc s => markFinal acc s 7) lF.sm)
          s).handler = some 7) :=
  c1_kv_run_prefix_final_states Nat c1sm 7 c1cmd c1pre c1kvs c1l0
    (by decide) (by decide) (by decide) (by decide) (by decide)
    (fun seg hs => Option.some.inj hs ▸ (by decide))
    (by rfl)

theorem isPrefixOf_nil_false (pat : List Char) (hpat : pat ≠ []) :
    pat.isPrefixOf ([] : List Char) = false := by
  cases pat with
  | nil => exact absurd rfl hpat
  | cons c cs => rfl

/-- `match_indices(pat).nth(0)` returns exactly the least index at which
`pat` occurs. -/
theorem matchIndicesFirst_some_iff (pat : List Char) (hpat : pat ≠ []) :
    ∀ (s : List Char) (p : Nat),
    matchIndicesFirst pat s = some p ↔
      (pat.isPrefixOf (s.drop p) = true ∧
       ∀ i, i < p → pat.isPrefixOf (s.drop i) = false) := by
  intro s
  induction s with
  | nil =>
    intro p
    simp only [matchIndicesFirst, isPrefixOf_nil_false pat hpat, if_false]
    constructor
    · intro hc
      cases hc
    · intro ⟨h1, _⟩
      rw [List.drop_nil] at h1
      rw [isPrefixOf_nil_false pat hpat] at h1
      cases h1
  | cons c rest ih =>
    intro p
    by_cases hp : pat.isPrefixOf (c :: rest) = true
    · simp only [matchIndicesFirst, hp, if_true]
      constructor
      · intro hc
        cases hc
        refine ⟨hp, ?_⟩
        intro i hi
        omega
      · intro ⟨h1, h2⟩
        cases p with
        | zero => rfl
        | succ q =>
          have := h2 0 (Nat.succ_pos q)
          rw [List.drop_zero] at this
          rw [hp] at this
          cases this
    · simp only [matchIndicesFirst, hp, if_false]
      cases p with
      | zero =>
        simp only [List.drop_zero]
        constructor
        · intro hc
          rcases Option.map_eq_some'.mp hc with ⟨q, _, hq⟩
          cases hq
        · intro ⟨h1, _⟩
          rw [h1] at hp
          exact absurd rfl hp
      | succ q =>
        constructor
        · intro hc
          rcases Option.map_eq_some'.mp hc with ⟨q2, hq2, hq2e⟩
          have hq2q : q2 = q := by omega
          subst hq2q
          obtain ⟨h1, h2⟩ := (ih q2).mp hq2
          refine ⟨h1, ?_⟩
          intro i hi
          cases i with
          | zero =>
            rw [List.drop_zero]
            cases hb : pat.isPrefixOf (c :: rest) with
            | false => rfl
            | true => exact absurd hb hp
          | succ i2 =>
            have : i2 < q2 := by omega
            exact h2 i2 this
        · intro ⟨h1, h2⟩
          have hr : matchIndicesFirst pat rest = some q := by
            rw [ih q]
            refine ⟨h1, ?_⟩
            intro i hi
            exact h2 (i + 1) (by omega)
          rw [hr]
          rfl

/-- Claim C2 (counterexample): `key_value_pair` accepts the segment
`a={}x` - which is not of the form `<non-empty-name>={}` with nothing
after - returning `Some("a")`; the claimed equivalence fails. -/
theorem c2_counterexample :
    keyValuePair ['a', '=', '\x7b', '\x7d', 'x'] = some ['a'] ∧
    ['a', '=', '\x7b', '\x7d', 'x'] ≠ ['a'] ++ kvPat := by
  constructor
  · decide
  · decide

/-- Claim C2 (amended): `key_value_pair(s)` returns `Some(name)` exactly
when `s` contains the pattern with a non-empty prefix before its first
occurrence; `name` is that prefix, and anything after the first occurrence
of the pattern is accepted and ignored. -/
theorem c2_key_value_pair_characterization (s n : List Char) :
    keyValuePair s = some n ↔
      (n ≠ [] ∧ (∃ rest, s = n ++ kvPat ++ rest) ∧
       ∀ i, i < n.length → kvPat.isPrefixOf (s.drop i) = false) := by
  have hpat : kvPat ≠ [] := by decide
  constructor
  · intro h
    rcases Option.bind_eq_some.mp h with ⟨p, hp, hf⟩
    obtain ⟨h1, h2⟩ := (matchIndicesFirst_some_iff kvPat hpat s p).mp hp
    by_cases hl : (s.take p).length > 0
    · rw [if_pos hl] at hf
      have hn : n = s.take p := (Option.some.inj hf).symm
      have hps : p ≤ s.length := by
        by_contra hgt
        push_neg at hgt
        rw [List.drop_eq_nil_of_le (Nat.le_of_lt hgt)] at h1
        rw [isPrefixOf_nil_false kvPat hpat] at h1
        cases h1
      have hnlen : n.length = p := by
        rw [hn, List.length_take]
        omega
      refine ⟨?_, ?_, ?_⟩
      · intro hnil
        rw [hn] at hnil
        rw [hnil] at hl
        simp at hl
      · rw [List.isPrefixOf_iff_prefix] at h1
        obtain ⟨rest, hrest⟩ := h1
        refine ⟨rest, ?_⟩
        rw [List.append_assoc, hrest, hn, List.take_append_drop]
      · rw [hnlen]
        exact h2
    · rw [if_neg hl] at hf
      cases hf
  · intro ⟨hne, ⟨rest, hrest⟩, hno⟩
    have hdrop : s.drop n.length = kvPat ++ rest := by
      rw [hrest, List.append_assoc]
      exact List.drop_left n (kvPat ++ rest)
    have hmif : matchIndicesFirst kvPat s = some n.length := by
      rw [matchIndicesFirst_some_iff kvPat hpat]
      refine ⟨?_, hno⟩
      rw [hdrop, List.isPrefixOf_iff_prefix]
      exact ⟨rest, rfl⟩
    have htake : s.take n.length = n := by
      rw [hrest, List.append_assoc]
      exact List.take_left n (kvPat ++ rest)
    show (matchIndicesFirst kvPat s).bind _ = some n
    rw [hmif, Option.some_bind, htake]
    rw [if_pos (List.length_pos.mpr hne)]

/-- Witness for claim C2 at the segment `a={}` of the key/value form. -/
theorem c2_witness :
    keyValuePair ['a', '=', '\x7b', '\x7d'] = some ['a'] ∧
    (['a'] ≠ [] ∧ (∃ rest, ['a', '=', '\x7b', '\x7d'] = ['a'] ++ kvPat ++ rest) ∧
     ∀ i, i < (['a'] : List Char).length →
       kvPat.isPrefixOf (List.drop i ['a', '=', '\x7b', '\x7d']) = false) :=
  ⟨by decide,
   (c2_key_value_pair_characterization ['a', '=', '\x7b', '\x7d'] ['a']).mp (by decide)⟩

/-- Claim C3: when `execute` finds a match, the guard is evaluated first; a
guard error is reported to the error sink and nothing is invoked; `Ok(false)`
invokes only the permission-denial reply (whose own failure goes to the
sink); `Ok(true)` invokes the handler, whose error goes to the sink; in every
case `execute` returns normally with exactly these events. -/
theorem c3_guard_gating (sm : StateMachine Command) (content : List Char)
    (r : Except String Unit) (cmd : Command) (params : List (List Char × List Char))
    (hpre : PREFIXSTR.isPrefixOf content = true)
    (hp : sm.process content = some (cmd, params)) :
    (∀ e, cmd.guard params = Except.error e →
      executeEvents sm false content r = [Event.matchAttempted, Event.errorSink e]) ∧
    (cmd.guard params = Except.ok false →
      executeEvents sm false content r =
        [Event.matchAttempted, Event.unauthorizedReply] ++ sinkEvents r ∧
      Event.handlerCalled ∉ executeEvents sm false content r) ∧
    (cmd.guard params = Except.ok true →
      executeEvents sm false content r =
        [Event.matchAttempted, Event.handlerCalled] ++ sinkEvents (cmd.ptr params) ∧
      Event.unauthorizedReply ∉ executeEvents sm false content r) := by
  have hexe : executeEvents sm false content r =
      Event.matchAttempted ::
        match cmd.guard params with
        | Except.ok true => Event.handlerCalled :: sinkEvents (cmd.ptr params)
        | Except.ok false => Event.unauthorizedReply :: sinkEvents r
        | Except.error e => [Event.errorSink e] := by
    rw [executeEvents]
    rw [if_pos]
    · rw [hp]
    · rw [hpre]
      rfl
  refine ⟨?_, ?_, ?_⟩
  · intro e he
    rw [hexe, he]
  · intro he
    rw [hexe, he]
    refine ⟨rfl, ?_⟩
    cases r with
    | ok u => simp [sinkEvents]
    | error e => simp [sinkEvents]
  · intro he
    rw [hexe, he]
    refine ⟨rfl, ?_⟩
    cases hptr : cmd.ptr params with
    | ok u => simp [sinkEvents, hptr]
    | error e => simp [sinkEvents, hptr]

/-- The template and message used to exercise the guard gating: a plain
literal command. -/
def c3tmpl : List Char := ['?', 'p', 'i', 'n', 'g']

/-- A command whose guard always denies. -/
def cmdC3 : Command :=
  { guard := fun _ => Except.ok false, ptr := fun _ => Except.ok () }

def smC3 : StateMachine Command :=
  (addProtected (StateMachine.new Command) c3tmpl cmdC3).getD (StateMachine.new Command)

/-- Witness for claim C3: with an always-false guard, a matching message
produces only the match attempt and the permission-denial reply, never the
handler. -/
theorem c3_witness :
    executeEvents smC3 false c3tmpl (Except.ok ()) =
      [Event.matchAttempted, Event.unauthorizedReply] ++ sinkEvents (Except.ok ()) ∧
    Event.handlerCalled ∉ executeEvents smC3 false c3tmpl (Except.ok ()) :=
  (c3_guard_gating smC3 c3tmpl (Except.ok ()) cmdC3 [] (by decide) (by rfl)).2.1 (by rfl)

/-- Claim C4 (counterexample): registering the malformed template `={}` -
whose key name is empty - does not fail: `add_protected` completes
normally. -/
theorem c4_counterexample :
    (addProtected (StateMachine.new Nat) ['=', '\x7b', '\x7d'] 7).isSome = true := by
  decide

/-- Claim C4 (amended): registration has no compile-error channel; a
key/value segment with an empty key name is not recognized as key/value
(`key_value_pair` returns `None`), so it is compiled as a literal segment and
registration completes, deferring the problem to matching, where the
malformed template is matched verbatim. -/
theorem c4_amended :
    keyValuePair ['=', '\x7b', '\x7d'] = none ∧
    ∃ m, addProtected (StateMachine.new Nat) ['=', '\x7b', '\x7d'] 7 = some m ∧
      m.process ['=', '\x7b', '\x7d'] = some (7, []) := by
  refine ⟨by decide,
    (addProtected (StateMachine.new Nat) ['=', '\x7b', '\x7d'] 7).getD
      (StateMachine.new Nat), by decide, by decide⟩

/-- Claim C5 (counterexample): the language-tag state built by
`add_code_segment_multi_line` (the exclusion-class side branch off the
opening fence, state 4 on a fresh machine) carries no capture-begin or
capture-end tag, and the body state is the only state of the whole segment
carrying a capture tag - so the language tag is matched but never captured
as a named parameter. -/
theorem c5_counterexample :
    (getNode (addCodeSegmentMultiLine (StateMachine.new Nat) ['c'] 0).1 4).charSet =
      CharacterSet.exclusion ['\x60', ' ', '\n'] ∧
    (getNode (addCodeSegmentMultiLine (StateMachine.new Nat) ['c'] 0).1 4).startParse =
      none ∧
    (getNode (addCodeSegmentMultiLine (StateMachine.new Nat) ['c'] 0).1 4).endParse =
      false ∧
    ((addCodeSegmentMultiLine (StateMachine.new Nat) ['c'] 0).1.states.map
      (fun nd => nd.startParse)) =
      [none, none, none, none, none, none, some ['c'], none, none, none] := by
  decide

/-- Claim C5 (amended): on a fresh machine, `add_code_segment_multi_line`
emits, in order: three literal backtick edges; a self-looping side branch
over any character except backtick, space and newline (the optional language
tag - matched and discarded, with no capture tags); a literal newline edge
with a bypass alias edge from the fence state; a self-looping any-character
body capture tagged begin and end for the segment's name; and three closing
literal backtick edges. -/
theorem c5_amended (name : List Char) :
    addCodeSegmentMultiLine (StateMachine.new Nat) name 0 =
      (⟨[{ charSet := CharacterSet.inclusion [], nextStates := [1], isFinal := false,
           startParse := none, endParse := false, handler := none },
         { charSet := CharacterSet.literal '\x60', nextStates := [2], isFinal := false,
           startParse := none, endParse := false, handler := none },
         { charSet := CharacterSet.literal '\x60', nextStates := [3], isFinal := false,
           startParse := none, endParse := false, handler := none },
         { charSet := CharacterSet.literal '\x60', nextStates := [4, 5], isFinal := false,
           startParse := none, endParse := false, handler := none },
         { charSet := CharacterSet.exclusion ['\x60', ' ', '\n'], nextStates := [4, 5],
           isFinal := false, startParse := none, endParse := false, handler := none },
         { charSet := CharacterSet.literal '\n', nextStates := [6], isFinal := false,
           startParse := none, endParse := false, handler := none },
         { charSet := CharacterSet.exclusion [], nextStates := [6, 7], isFinal := false,
           startParse := some name, endParse := true, handler := none },
         { charSet := CharacterSet.literal '\x60', nextStates := [8], isFinal := false,
           startParse := none, endParse := false, handler := none },
         { charSet := CharacterSet.literal '\x60', nextStates := [9], isFinal := false,
           startParse := none, endParse := false, handler := none },
         { charSet := CharacterSet.literal '\x60', nextStates := [], isFinal := false,
           startParse := none, endParse := false, handler := none }]⟩, 9) := rfl

/-- Claim C6: `menu()` hands the recorded listing out exactly once - the
first call returns everything recorded so far, the second call (and every
later one) returns nothing, so two consecutive calls never both yield
entries. -/
theorem c6_menu_take_once (c : Commands) :
    (c.menuTake).1 = c.menu ∧
    ((c.menuTake).2.menuTake).1 = none ∧
    ¬((c.menuTake).1 ≠ none ∧ ((c.menuTake).2.menuTake).1 ≠ none) := by
  refine ⟨rfl, rfl, ?_⟩
  intro hc
  exact hc.2 rfl

/-- Claim C7: `execute` attempts a state-machine match (and can therefore
invoke anything at all) exactly when the message is not the router's own and
its content starts with the prefix; otherwise it does nothing. -/
theorem c7_gating (sm : StateMachine Command) (isOwn : Bool) (content : List Char)
    (r : Except String Unit) :
    ((isOwn = true ∨ PREFIXSTR.isPrefixOf content = false) →
      executeEvents sm isOwn content r = []) ∧
    (isOwn = false → PREFIXSTR.isPrefixOf content = true →
      ∃ rest, executeEvents sm isOwn content r = Event.matchAttempted :: rest) := by
  constructor
  · intro hc
    rcases hc with hc | hc <;> simp [executeEvents, hc]
  · intro h1 h2
    rw [executeEvents, if_pos (by rw [h1, h2]; rfl)]
    cases sm.process content with
    | none => exact ⟨[], rfl⟩
    | some m => exact ⟨_, rfl⟩

/-- Witness for claim C7 on a fresh machine: an own message is ignored, a
non-own prefixed message reaches the matcher. -/
theorem c7_witness :
    executeEvents (StateMachine.new Command) true ['?', 'x'] (Except.ok ()) = [] ∧
    (∃ rest, executeEvents (StateMachine.new Command) false ['?', 'x'] (Except.ok ()) =
      Event.matchAttempted :: rest) :=
  ⟨(c7_gating (StateMachine.new Command) true ['?', 'x'] (Except.ok ())).1 (Or.inl rfl),
   (c7_gating (StateMachine.new Command) false ['?', 'x'] (Except.ok ())).2 rfl (by decide)⟩

theorem segmentStep_backtick_none (T : Type) (i : Nat) (l : LoopState T) :
    segmentStep i ['\x60'] l = none := rfl

theorem segmentStep_triple_backtick_none (T : Type) (i : Nat) (l : LoopState T) :
    segmentStep i ['\x60', '\x60', '\x60'] l = none := rfl

theorem addProtectedLoop_none_of_mem (T : Type) (bad : List Char)
    (hbad : ∀ (i : Nat) (l : LoopState T), segmentStep i bad l = none) :
    ∀ (segs : List (Nat × List Char)) (l : LoopState T),
    (∃ i, (i, bad) ∈ segs) → addProtectedLoop segs l = none := by
  intro segs
  induction segs with
  | nil =>
    intro l hm
    obtain ⟨i, hi⟩ := hm
    simp at hi
  | cons x rest ih =>
    intro l hm
    obtain ⟨i, hi⟩ := hm
    cases x with
    | mk j seg =>
    rcases List.mem_cons.mp hi with he | he
    · cases he
      rw [addProtectedLoop, hbad i l]
      rfl
    · rw [addProtectedLoop]
      cases hstep : segmentStep j seg l with
      | none => rfl
      | some l1 =>
        rw [Option.some_bind]
        exact ih l1 ⟨i, he⟩

theorem exists_mem_enumFrom_of_mem (B : List (List Char)) (b : List Char) :
    ∀ n, b ∈ B → ∃ i, (i, b) ∈ B.enumFrom n := by
  induction B with
  | nil =>
    intro n hb
    simp at hb
  | cons x rest ih =>
    intro n hb
    rcases List.mem_cons.mp hb with hb | hb
    · subst hb
      exact ⟨n, List.mem_cons_self _ _⟩
    · obtain ⟨i, hi⟩ := ih (n + 1) hb
      exact ⟨i, List.mem_cons_of_mem _ hi⟩

/-- Claim C9: any template one of whose segments is exactly one backtick or
exactly three backticks makes `add/add_protected` panic (the fence-stripping
slice has its start past its end), so registration is not total over static
template strings. -/
theorem c9_backtick_segment_panics (T : Type) (sm : StateMachine T) (h : T)
    (cmd : List Char)
    (hseg : ['\x60'] ∈ splitSegments cmd ∨
            ['\x60', '\x60', '\x60'] ∈ splitSegments cmd) :
    addProtected sm cmd h = none := by
  rw [addProtected_eq_loop]
  rcases hseg with hseg | hseg
  · obtain ⟨i, hi⟩ := exists_mem_enumFrom_of_mem (splitSegments cmd) _ 0 hseg
    rw [addProtectedLoop_none_of_mem T ['\x60'] (segmentStep_backtick_none T)
      (splitSegments cmd).enum (initLoop sm) ⟨i, hi⟩]
    rfl
  · obtain ⟨i, hi⟩ := exists_mem_enumFrom_of_mem (splitSegments cmd) _ 0 hseg
    rw [addProtectedLoop_none_of_mem T ['\x60', '\x60', '\x60']
      (segmentStep_triple_backtick_none T)
      (splitSegments cmd).enum (initLoop sm) ⟨i, hi⟩]
    rfl

/-- Witness for claim C9: registering a template containing a lone-backtick
segment (and one containing a lone triple-backtick segment) panics. -/
theorem c9_witness :
    addProtected (StateMachine.new Nat) ['?', 'x', ' ', '\x60'] 7 = none ∧
    addProtected (StateMachine.new Nat) ['?', 'x', ' ', '\x60', '\x60', '\x60'] 7 = none :=
  ⟨c9_backtick_segment_panics Nat (StateMachine.new Nat) 7 _ (Or.inl (by decide)),
   c9_backtick_segment_panics Nat (StateMachine.new Nat) 7 _ (Or.inr (by decide))⟩

/-- Claim C10: once `menu()` has been called, a later `help_protected` still
compiles the help path into the shared machine and binds its handler and
guard - the command is dispatchable - but the listing entry is silently
discarded: the menu stays empty forever and no later `menu()` call can
retrieve the entry. -/
theorem c10_help_after_menu_taken (c : Commands) (cmd desc : List Char)
    (handler : List (List Char × List Char) → Except String Unit) (guard : GuardFn)
    (hmenu : c.menu = none) (hcmd : 1 ≤ cmd.length)
    (hwf : SMwf c.state_machine = true) (hlen : 0 < c.state_machine.states.length) :
    ∃ c2, c.helpProtected cmd desc handler guard = some c2 ∧
      c2.menu = none ∧
      (c2.menuTake).1 = none ∧
      c2.state_machine =
        markFinal (addHelpMenu c.state_machine (cmd.drop 1) 0).1
          (addHelpMenu c.state_machine (cmd.drop 1) 0).2
          { guard := guard, ptr := handler } ∧
      (getNode c2.state_machine
        (addHelpMenu c.state_machine (cmd.drop 1) 0).2).isFinal = true ∧
      (getNode c2.state_machine
        (addHelpMenu c.state_machine (cmd.drop 1) 0).2).handler =
        some { guard := guard, ptr := handler } := by
  have hslice : sliceRange cmd 1 cmd.length = some (cmd.drop 1) := by
    rw [sliceRange, if_pos ⟨hcmd, Nat.le.refl⟩, List.take_length]
  obtain ⟨w1, w2, w3⟩ := addHelpMenu_ok c.state_machine (cmd.drop 1) 0 hwf hlen
  cases haux : addHelpMenu c.state_machine (cmd.drop 1) 0 with
  | mk sm1 st =>
  rw [haux] at w1 w2 w3
  dsimp only at w1 w2 w3 ⊢
  have hrec : c.helpProtected cmd desc handler guard = some
      { state_machine := markFinal sm1 st { guard := guard, ptr := handler },
        menu := none } := by
    simp only [Commands.helpProtected, hslice, Option.map_some', hmenu, haux]
    rfl
  refine ⟨_, hrec, rfl, rfl, rfl, ?_, ?_⟩
  · dsimp only
    rw [getNode_markFinal_self _ _ _ w3]
  · dsimp only
    rw [getNode_markFinal_self _ _ _ w3]

/-- A router whose menu has already been taken. -/
def c10base : Commands := (Commands.new.menuTake).2

/-- Witness for claim C10 on a fresh router whose menu was taken. -/
theorem c10_witness :
    ∃ c2, c10base.helpProtected ['?', 'x'] ['d']
        (fun _ => Except.ok ()) (fun _ => Except.ok true) = some c2 ∧
      c2.menu = none ∧
      (c2.menuTake).1 = none ∧
      c2.state_machine =
        markFinal (addHelpMenu c10base.state_machine (['?', 'x'].drop 1) 0).1
          (addHelpMenu c10base.state_machine (['?', 'x'].drop 1) 0).2
          { guard := fun _ => Except.ok true, ptr := fun _ => Except.ok () } ∧
      (getNode c2.state_machine
        (addHelpMenu c10base.state_machine (['?', 'x'].drop 1) 0).2).isFinal = true ∧
      (getNode c2.state_machine
        (addHelpMenu c10base.state_machine (['?', 'x'].drop 1) 0).2).handler =
        some { guard := fun _ => Except.ok true, ptr := fun _ => Except.ok () } :=
  c10_help_after_menu_taken c10base ['?', 'x'] ['d']
    (fun _ => Except.ok ()) (fun _ => Except.ok true)
    rfl (by decide) (by decide) (by decide)

/-- The template of two key/value segments starting at index 0, written with
escaped braces. -/
def c8tmpl : List Char :=
  "a=".toList ++ ['\x7b', '\x7d'] ++ " b=".toList ++ ['\x7b', '\x7d']

/-- Claim C8 (counterexample): compiling `a={} b={}` - whose segment at
index 1 is a key/value segment continuing a run - inserts no whitespace edge
at all: the compiled machine contains zero states carrying the
space-or-newline class, while the compiler that follows the claim's words
(whitespace edge first for every segment of positive index) produces one;
the two machines differ. -/
theorem c8_counterexample :
    addProtected (StateMachine.new Nat) c8tmpl 7 ≠
      addProtectedClaimC8 (StateMachine.new Nat) c8tmpl 7 ∧
    (∃ m, addProtected (StateMachine.new Nat) c8tmpl 7 = some m ∧
      countWhitespaceStates m = 0) ∧
    (∃ m, addProtectedClaimC8 (StateMachine.new Nat) c8tmpl 7 = some m ∧
      1 ≤ countWhitespaceStates m) := by
  refine ⟨by decide, ?_, ?_⟩
  · exact ⟨(addProtected (StateMachine.new Nat) c8tmpl 7).getD (StateMachine.new Nat),
      by decide, by decide⟩
  · exact ⟨(addProtectedClaimC8 (StateMachine.new Nat) c8tmpl 7).getD (StateMachine.new Nat),
      by decide, by decide⟩

/-- Claim C8 (amended): `add_space` inserts nothing at index 0 and, at
positive index, inserts one edge accepting exactly the set of space and
newline and makes it self-looping; the compiler runs it before every
non-key/value segment and before the first segment of a key/value run, but a
key/value segment that continues a run is attached directly from the hub
with no whitespace edge of its own. -/
theorem c8_amended (T : Type) (sm : StateMachine T) (st : Nat) (i : Nat) (c : Char)
    (l : LoopState T) (seg name : List Char) (L : Nat) :
    (addSpace sm st 0 = (sm, st)) ∧
    (0 < i → addSpace sm st i =
      ((sm.add st ((CharacterSet.fromChar ' ').insert '\n')).1.addNextState
         (sm.add st ((CharacterSet.fromChar ' ').insert '\n')).2
         (sm.add st ((CharacterSet.fromChar ' ').insert '\n')).2,
       (sm.add st ((CharacterSet.fromChar ' ').insert '\n')).2)) ∧
    (((CharacterSet.fromChar ' ').insert '\n').accepts c = true ↔
      (c = ' ' ∨ c = '\n')) ∧
    (SMwf sm = true → 0 < i →
      (addSpace sm st i).2 ∈ (getNode (addSpace sm st i).1 (addSpace sm st i).2).nextStates) ∧
    (keyValuePair seg = some name → l.optLambdaState = some L →
      segmentStep i seg l = some
        { sm := (addKeyValue l.sm name L).1.addNextState (addKeyValue l.sm name L).2 L,
          state := (addKeyValue l.sm name L).2,
          optLambdaState := some L,
          optFinalStates := l.optFinalStates ++ [(addKeyValue l.sm name L).2] }) := by
  refine ⟨rfl, ?_, ?_, ?_, ?_⟩
  · intro hi
    rw [addSpace, if_pos hi]
  · simp [CharacterSet.fromChar, CharacterSet.insert, CharacterSet.accepts]
  · intro hwf hi
    rw [addSpace, if_pos hi]
    cases hA : sm.add st ((CharacterSet.fromChar ' ').insert '\n') with
    | mk smA w =>
    have hlt : w < smA.states.length := by
      have h2 := add_snd_lt sm st ((CharacterSet.fromChar ' ').insert '\n') hwf
      rw [hA] at h2
      exact h2
    simp only [hA]
    rw [StateMachine.addNextState]
    rw [getNode_setNode_self _ _ _ hlt]
    exact List.mem_append_right _ (List.mem_singleton.mpr rfl)
  · intro hkv hlam
    exact segmentStep_kv_cont i seg name l L hkv hlam

/-- The loop state used to exercise the key/value continuation step: the hub
is state 0. -/
def c8loop : LoopState Nat :=
  { sm := StateMachine.new Nat, state := 0, optLambdaState := some 0,
    optFinalStates := [] }

/-- Witness for claim C8 at concrete inputs. -/
theorem c8_witness :
    (addSpace (StateMachine.new Nat) 0 0 = (StateMachine.new Nat, 0)) ∧
    (addSpace (StateMachine.new Nat) 0 1 =
      (((StateMachine.new Nat).add 0 ((CharacterSet.fromChar ' ').insert '\n')).1.addNextState
         ((StateMachine.new Nat).add 0 ((CharacterSet.fromChar ' ').insert '\n')).2
         ((StateMachine.new Nat).add 0 ((CharacterSet.fromChar ' ').insert '\n')).2,
       ((StateMachine.new Nat).add 0 ((CharacterSet.fromChar ' ').insert '\n')).2)) ∧
    (((CharacterSet.fromChar ' ').insert '\n').accepts ' ' = true ↔
      (' ' = ' ' ∨ ' ' = '\n')) ∧
    segmentStep 1 ['a', '=', '\x7b', '\x7d'] c8loop = some
      { sm := (addKeyValue c8loop.sm ['a'] 0).1.addNextState
          (addKeyValue c8loop.sm ['a'] 0).2 0,
        state := (addKeyValue c8loop.sm ['a'] 0).2,
        optLambdaState := some 0,
        optFinalStates := c8loop.optFinalStates ++ [(addKeyValue c8loop.sm ['a'] 0).2] } :=
  ⟨(c8_amended Nat (StateMachine.new Nat) 0 1 ' ' c8loop ['a', '=', '\x7b', '\x7d'] ['a'] 0).1,
   (c8_amended Nat (StateMachine.new Nat) 0 1 ' ' c8loop ['a', '=', '\x7b', '\x7d'] ['a'] 0).2.1
     (by decide),
   (c8_amended Nat (StateMachine.new Nat) 0 1 ' ' c8loop ['a', '=', '\x7b', '\x7d'] ['a'] 0).2.2.1,
   (c8_amended Nat (StateMachine.new Nat) 0 1 ' ' c8loop ['a', '=', '\x7b', '\x7d'] ['a'] 0).2.2.2.2
     (by decide) rfl⟩
